import Mathlib

/-!
# Verification of `lib/svg/path.go` (SVG path builder of d2)

A shallow embedding of the path builder (`SvgPathContext` and its methods), of the
precision normalizer `chopPrecision`, of the dash heuristic `GetStrokeDashAttributes` and of
the Bézier sub-segment routine `BezierCurveSegment`, followed by theorems about them.

## Number model

Go's `float64` is modelled by `GoFloat`: a NaN, the two infinities, or a finite value held as
a rational. Every arithmetic operation computes the exact rational result and rounds it to the
binary64 grid (53-bit significand, round to nearest, ties to even, gradual underflow, overflow
to an infinity); the conversion `float32(·)` rounds to the binary32 grid in the same way.
Each operation is rounded on its own (no fused multiply-add). The one abstraction is the sign
of zero: `-0` is identified with `0` (Go's `==` identifies them as well; only the printed form
`-0` is outside the model).

`BezierCurveSegment` and `GetStrokeDashAttributes` are written once, generically in the number
type, so that they can be read as computed (at `GoFloat`) and in exact arithmetic (any
commutative ring, in particular `ℝ`). `math.Log10`, which `GetStrokeDashAttributes` calls, is a
parameter of it: the base 10 logarithm over `ℝ`, and at `GoFloat` any function with the
properties a theorem states for it.

## Pointers

`*geo.Point` fields are `Option (Point _)`, `none` being the nil pointer; a method that would
dereference nil (a panic in Go) returns `none`. A field holds the value its pointer points to;
`StartAt`, which keeps the caller's pointer in `Start`, holds the value of the point at the
time of the call. What is shared with the caller is the subject of a second, pointer-level
model of `NewSVGPathContext`, `StartAt` and `Z` (`PtrContext`), shown to agree with the first
as long as the caller does not assign to the point.
-/

namespace D2Svg

/-! ## Binary floating point rounding -/

/-- Nearest integer to `q`, a tie going to the even neighbour. -/
def roundHalfEven (q : ℚ) : ℤ :=
  if q - ⌊q⌋ < 1 / 2 then ⌊q⌋
  else if 1 / 2 < q - ⌊q⌋ then ⌊q⌋ + 1
  else if ⌊q⌋ % 2 = 0 then ⌊q⌋ else ⌊q⌋ + 1

/-- Nearest integer to `q`, a tie going away from zero. -/
def roundHalfAway (q : ℚ) : ℤ :=
  if 0 ≤ q then ⌊q + 1 / 2⌋ else -⌊-q + 1 / 2⌋

/-- Halving loop behind `natLog2`. -/
def natLog2Aux : ℕ → ℕ → ℕ
  | 0, _ => 0
  | fuel + 1, n => if n < 2 then 0 else natLog2Aux fuel (n / 2) + 1

/-- Position of the highest set bit of `n ≠ 0`: `2 ^ natLog2 n ≤ n < 2 ^ (natLog2 n + 1)`. -/
def natLog2 (n : ℕ) : ℕ := natLog2Aux n n

/-- Binary exponent of `q ≠ 0`: the `e` with `2 ^ e ≤ |q| < 2 ^ (e + 1)`, found from the bit
lengths of numerator and denominator. -/
def ilog2 (q : ℚ) : ℤ :=
  if (2 : ℚ) ^ ((natLog2 q.num.natAbs : ℤ) - (natLog2 q.den : ℤ)) ≤ |q|
  then (natLog2 q.num.natAbs : ℤ) - (natLog2 q.den : ℤ)
  else (natLog2 q.num.natAbs : ℤ) - (natLog2 q.den : ℤ) - 1

/-- Binary exponent of the unit in the last place of `q` in a format with `prec` significand
bits whose smallest subnormal is `2 ^ emin`. -/
def ulpExp (prec : ℕ) (emin : ℤ) (q : ℚ) : ℤ :=
  max (ilog2 q - ((prec : ℤ) - 1)) emin

/-- Value of `q` rounded to the grid of the binary format `(prec, emin)`: round to nearest,
ties to even, exponent unbounded above. -/
def roundBinary (prec : ℕ) (emin : ℤ) (q : ℚ) : ℚ :=
  (roundHalfEven (q / (2 : ℚ) ^ ulpExp prec emin q) : ℚ) * (2 : ℚ) ^ ulpExp prec emin q

/-- Go `float64` value (the sign of zero is not represented). -/
inductive GoFloat where
  | nan : GoFloat
  | inf (neg : Bool) : GoFloat
  | fin (q : ℚ) : GoFloat
  deriving DecidableEq

/-- Largest finite binary64 value, `math.MaxFloat64`. -/
def maxFloat64 : ℚ := (2 ^ 53 - 1) * 2 ^ 971

/-- Largest finite binary32 value, `math.MaxFloat32`. -/
def maxFloat32 : ℚ := (2 ^ 24 - 1) * 2 ^ 104

/-- Rounding of an exact result to binary64, overflowing to an infinity. -/
def ofRat64 (q : ℚ) : GoFloat :=
  if maxFloat64 < |roundBinary 53 (-1074) q| then GoFloat.inf (decide (q < 0))
  else GoFloat.fin (roundBinary 53 (-1074) q)

/-- Rounding of an exact value to binary32, overflowing to an infinity. -/
def ofRat32 (q : ℚ) : GoFloat :=
  if maxFloat32 < |roundBinary 24 (-149) q| then GoFloat.inf (decide (q < 0))
  else GoFloat.fin (roundBinary 24 (-149) q)

namespace GoFloat

/-- Go `x + y` on `float64`. -/
def add : GoFloat → GoFloat → GoFloat
  | fin a, fin b => ofRat64 (a + b)
  | fin _, inf s => inf s
  | inf s, fin _ => inf s
  | inf s, inf t => if s = t then inf s else nan
  | _, _ => nan

/-- Go `-x` on `float64`. -/
def neg : GoFloat → GoFloat
  | fin a => fin (-a)
  | inf s => inf (!s)
  | nan => nan

/-- Go `x - y` on `float64`. -/
def sub (x y : GoFloat) : GoFloat := add x (neg y)

/-- Go `x * y` on `float64`. -/
def mul : GoFloat → GoFloat → GoFloat
  | fin a, fin b => ofRat64 (a * b)
  | fin a, inf s => if a = 0 then nan else inf (xor s (decide (a < 0)))
  | inf s, fin b => if b = 0 then nan else inf (xor s (decide (b < 0)))
  | inf s, inf t => inf (xor s t)
  | _, _ => nan

/-- Go `x / y` on `float64`. -/
def div : GoFloat → GoFloat → GoFloat
  | fin a, fin b =>
    if b = 0 then (if a = 0 then nan else inf (decide (a < 0))) else ofRat64 (a / b)
  | fin _, inf _ => fin 0
  | inf s, fin b => inf (xor s (decide (b < 0)))
  | _, _ => nan

instance : Add GoFloat := ⟨add⟩
instance : Sub GoFloat := ⟨sub⟩
instance : Mul GoFloat := ⟨mul⟩
instance : Div GoFloat := ⟨div⟩
instance : Neg GoFloat := ⟨neg⟩

/-- Go conversion `float64(float32(x))`. -/
def toFloat32 : GoFloat → GoFloat
  | fin a => ofRat32 a
  | x => x

/-- Go `math.Round`: nearest integer, halves away from zero. -/
def round : GoFloat → GoFloat
  | fin a => fin (roundHalfAway a)
  | x => x

instance (n : ℕ) : OfNat GoFloat n := ⟨ofRat64 n⟩

instance : OfScientific GoFloat :=
  ⟨fun m s e => ofRat64 (OfScientific.ofScientific m s e : ℚ)⟩

end GoFloat

/-! ## Printing of a `float64` with the verb `%v`

`fmt` prints a `float64` under `%v` as `strconv.FormatFloat(x, 'g', -1, 64)`: the shortest
decimal digit string that reads back as `x`, laid out in positional form when the decimal
exponent lies in `[-4, 6)` and in exponent form otherwise. -/

/-- Search for the shortest digit string of `v > 0`, trying `nd`, `nd + 1`, ... digits: the
result is `(m, e)` standing for the decimal `m * 10 ^ e`. With `nd` digits the candidates are
`v` cut after `nd` digits and that value plus one unit in the last digit; a candidate is good
when binary64 rounding takes it back to `v`. `dp` is the position of the decimal point
(`10 ^ (dp - 1) ≤ v < 10 ^ dp`). -/
def shortestDigits (v : ℚ) (dp : ℤ) : ℕ → ℕ → ℕ × ℤ
  | 0, nd => ((roundHalfEven (v / (10 : ℚ) ^ (dp - nd))).toNat, dp - nd)
  | fuel + 1, nd =>
    let lo : ℕ := ⌊v / (10 : ℚ) ^ (dp - nd)⌋₊
    let okdown : Bool := decide (ofRat64 ((lo : ℚ) * (10 : ℚ) ^ (dp - nd)) = GoFloat.fin v)
    let okup : Bool := decide (ofRat64 (((lo : ℚ) + 1) * (10 : ℚ) ^ (dp - nd)) = GoFloat.fin v)
    if okdown && okup then ((roundHalfEven (v / (10 : ℚ) ^ (dp - nd))).toNat, dp - nd)
    else if okdown then (lo, dp - nd)
    else if okup then (lo + 1, dp - nd)
    else shortestDigits v dp fuel (nd + 1)

/-- Drop the trailing zeros of a digit list. -/
def stripTrailingZeros (ds : List Char) : List Char :=
  (ds.reverse.dropWhile (fun ch => ch == '0')).reverse

/-- Exponent layout `d.ddde±xx` of the digits `ds` with decimal exponent `exp`. -/
def fmtE (ds : List Char) (exp : ℤ) : String :=
  String.mk (ds.take 1 ++ (if 1 < ds.length then '.' :: ds.drop 1 else []))
    ++ "e" ++ (if exp < 0 then "-" else "+")
    ++ (if exp.natAbs < 10 then "0" else "") ++ toString exp.natAbs

/-- Positional layout of the digits `ds` whose decimal point stands after `dp` digits. -/
def fmtF (ds : List Char) (dp : ℤ) : String :=
  String.mk ((if 0 < dp then ds.take dp.toNat ++ List.replicate (dp.toNat - ds.length) '0'
      else ['0'])
    ++ (if dp < (ds.length : ℤ)
      then '.' :: (List.replicate (-dp).toNat '0' ++ ds.drop dp.toNat) else []))

/-- Position of the decimal point of `v > 0`: the `dp` with `10 ^ (dp - 1) ≤ v < 10 ^ dp`,
found from the digit counts of numerator and denominator. -/
def decimalPoint (v : ℚ) : ℤ :=
  if (10 : ℚ) ^ (((Nat.toDigits 10 v.num.natAbs).length : ℤ) - (Nat.toDigits 10 v.den).length)
      ≤ v
  then ((Nat.toDigits 10 v.num.natAbs).length : ℤ) - (Nat.toDigits 10 v.den).length + 1
  else ((Nat.toDigits 10 v.num.natAbs).length : ℤ) - (Nat.toDigits 10 v.den).length

/-- Shortest `%g` rendering of a positive finite value. -/
def fmtPos (v : ℚ) : String :=
  let r := shortestDigits v (decimalPoint v) 17 1
  let all := Nat.toDigits 10 r.1
  let ds := stripTrailingZeros all
  let dp : ℤ := r.2 + all.length
  if dp - 1 < -4 ∨ 6 ≤ dp - 1 then fmtE ds (dp - 1) else fmtF ds dp

/-- Text produced by `fmt` for a `float64` under `%v`. -/
def fmtV : GoFloat → String
  | GoFloat.nan => "NaN"
  | GoFloat.inf false => "+Inf"
  | GoFloat.inf true => "-Inf"
  | GoFloat.fin q => if q = 0 then "0" else if q < 0 then "-" ++ fmtPos (-q) else fmtPos q

/-! ## Geometry values (package `geo`) -/

/-- A `geo.Point`: a pair of coordinates. -/
structure Point (α : Type) where
  X : α
  Y : α
  deriving DecidableEq

/-- A `geo.Intersectable` as built by the path builder: a `geo.Segment` or the
`geo.BezierCurve` made by `geo.NewBezierCurve` from its control points. -/
inductive Intersectable where
  | segment (Start End : Point GoFloat) : Intersectable
  | bezierCurve (points : List (Point GoFloat)) : Intersectable
  deriving DecidableEq

/-! ## The path builder -/

/-- The struct `SvgPathContext`; a nil pointer field is `none`. -/
structure SvgPathContext where
  Path : List Intersectable
  Commands : List String
  Start : Option (Point GoFloat)
  Current : Option (Point GoFloat)
  TopLeft : Option (Point GoFloat)
  ScaleX : GoFloat
  ScaleY : GoFloat
  deriving DecidableEq

/-- The function `chopPrecision`:
`math.Round(float64(float32(f*10000)) / 10000)`. -/
def chopPrecision (f : GoFloat) : GoFloat :=
  GoFloat.round (GoFloat.toFloat32 (f * GoFloat.fin 10000) / GoFloat.fin 10000)

/-- The constructor `NewSVGPathContext` (called with a non-nil `tl`). -/
def NewSVGPathContext (tl : Point GoFloat) (sx sy : GoFloat) : SvgPathContext :=
  { Path := [], Commands := [], Start := none, Current := none,
    TopLeft := some tl, ScaleX := sx, ScaleY := sy }

namespace SvgPathContext

/-- The method `Relative`; `none` when `base` is nil. -/
def Relative (c : SvgPathContext) (base : Option (Point GoFloat)) (dx dy : GoFloat) :
    Option (Point GoFloat) :=
  match base with
  | none => none
  | some b => some ⟨chopPrecision (b.X + c.ScaleX * dx), chopPrecision (b.Y + c.ScaleY * dy)⟩

/-- The method `Absolute`. -/
def Absolute (c : SvgPathContext) (x y : GoFloat) : Option (Point GoFloat) :=
  c.Relative c.TopLeft x y

/-- The method `StartAt` (called with a non-nil `p`). -/
def StartAt (c : SvgPathContext) (p : Point GoFloat) : SvgPathContext :=
  { c with
    Start := some p
    Commands := c.Commands ++ ["M " ++ fmtV p.X ++ " " ++ fmtV p.Y]
    Current := some p }

/-- The method `Z`; `none` when `Current` or `Start` is nil. -/
def Z (c : SvgPathContext) : Option SvgPathContext :=
  match c.Current, c.Start with
  | some cur, some st =>
    some { c with
      Path := c.Path ++ [Intersectable.segment cur st]
      Commands := c.Commands ++ ["Z"]
      Current := some st }
  | _, _ => none

/-- The method `L`. -/
def L (c : SvgPathContext) (isLowerCase : Bool) (x y : GoFloat) : Option SvgPathContext :=
  match (if isLowerCase then c.Relative c.Current x y else c.Absolute x y), c.Current with
  | some endPoint, some cur =>
    some { c with
      Path := c.Path ++ [Intersectable.segment cur endPoint]
      Commands := c.Commands ++ ["L " ++ fmtV endPoint.X ++ " " ++ fmtV endPoint.Y]
      Current := some endPoint }
  | _, _ => none

/-- The method `C`; `p` is its local closure. -/
def C (c : SvgPathContext) (isLowerCase : Bool) (x1 y1 x2 y2 x3 y3 : GoFloat) :
    Option SvgPathContext :=
  let p := fun (x y : GoFloat) =>
    if isLowerCase then c.Relative c.Current x y else c.Absolute x y
  match c.Current, p x1 y1, p x2 y2, p x3 y3 with
  | some cur, some q1, some q2, some q3 =>
    some { c with
      Path := c.Path ++ [Intersectable.bezierCurve [cur, q1, q2, q3]]
      Commands := c.Commands ++ ["C " ++ fmtV q1.X ++ " " ++ fmtV q1.Y ++ " "
        ++ fmtV q2.X ++ " " ++ fmtV q2.Y ++ " " ++ fmtV q3.X ++ " " ++ fmtV q3.Y]
      Current := some q3 }
  | _, _, _, _ => none

/-- The method `H`. -/
def H (c : SvgPathContext) (isLowerCase : Bool) (x : GoFloat) : Option SvgPathContext :=
  match (if isLowerCase then c.Relative c.Current x 0
      else match c.Absolute x 0, c.Current with
        | some e, some cur => some { e with Y := cur.Y }
        | _, _ => none), c.Current with
  | some endPoint, some cur =>
    some { c with
      Path := c.Path ++ [Intersectable.segment cur endPoint]
      Commands := c.Commands ++ ["H " ++ fmtV endPoint.X]
      Current := some endPoint }
  | _, _ => none

/-- The method `V`. -/
def V (c : SvgPathContext) (isLowerCase : Bool) (y : GoFloat) : Option SvgPathContext :=
  match (if isLowerCase then c.Relative c.Current 0 y
      else match c.Absolute 0 y, c.Current with
        | some e, some cur => some { e with X := cur.X }
        | _, _ => none), c.Current with
  | some endPoint, some cur =>
    some { c with
      Path := c.Path ++ [Intersectable.segment cur endPoint]
      Commands := c.Commands ++ ["V " ++ fmtV endPoint.Y]
      Current := some endPoint }
  | _, _ => none

/-- The method `PathData`: `strings.Join(c.Commands, " ")`. -/
def PathData (c : SvgPathContext) : String :=
  " ".intercalate c.Commands

end SvgPathContext

/-! ## Dash heuristic and Bézier sub-segment -/

/-- The local `scale` of `GetStrokeDashAttributes`; `log10` stands for `math.Log10`. -/
def strokeDashScale {α : Type} [Neg α] [Add α] [Mul α] [OfScientific α]
    (log10 : α → α) (strokeWidth : α) : α :=
  log10 (-0.6 * strokeWidth + 10.6) * 0.5 + 0.5

/-- The function `GetStrokeDashAttributes`, returning `(scaledDashSize, scaledGapSize)`. -/
def GetStrokeDashAttributes {α : Type} [Neg α] [Add α] [Mul α] [OfScientific α]
    (log10 : α → α) (strokeWidth dashGapSize : α) : α × α :=
  (strokeWidth * dashGapSize, strokeDashScale log10 strokeWidth * (strokeWidth * dashGapSize))

/-- The function `BezierCurveSegment`. -/
def BezierCurveSegment {α : Type} [Add α] [Sub α] [Mul α] [OfNat α 1] [OfNat α 2] [OfNat α 3]
    (p1 p2 p3 p4 : Point α) (t0 t1 : α) : Point α × Point α × Point α × Point α :=
  let u0 : α := 1 - t0
  let u1 : α := 1 - t1
  let q1 : Point α :=
    { X := (u0*u0*u0)*p1.X + (3*t0*u0*u0)*p2.X + (3*t0*t0*u0)*p3.X + t0*t0*t0*p4.X
      Y := (u0*u0*u0)*p1.Y + (3*t0*u0*u0)*p2.Y + (3*t0*t0*u0)*p3.Y + t0*t0*t0*p4.Y }
  let q2 : Point α :=
    { X := (u0*u0*u1)*p1.X + (2*t0*u0*u1+u0*u0*t1)*p2.X + (t0*t0*u1+2*u0*t0*t1)*p3.X
        + t0*t0*t1*p4.X
      Y := (u0*u0*u1)*p1.Y + (2*t0*u0*u1+u0*u0*t1)*p2.Y + (t0*t0*u1+2*u0*t0*t1)*p3.Y
        + t0*t0*t1*p4.Y }
  let q3 : Point α :=
    { X := (u0*u1*u1)*p1.X + (t0*u1*u1+2*u0*t1*u1)*p2.X + (2*t0*t1*u1+u0*t1*t1)*p3.X
        + t0*t1*t1*p4.X
      Y := (u0*u1*u1)*p1.Y + (t0*u1*u1+2*u0*t1*u1)*p2.Y + (2*t0*t1*u1+u0*t1*t1)*p3.Y
        + t0*t1*t1*p4.Y }
  let q4 : Point α :=
    { X := (u1*u1*u1)*p1.X + (3*t1*u1*u1)*p2.X + (3*t1*t1*u1)*p3.X + t1*t1*t1*p4.X
      Y := (u1*u1*u1)*p1.Y + (3*t1*u1*u1)*p2.Y + (3*t1*t1*u1)*p3.Y + t1*t1*t1*p4.Y }
  (q1, q2, q3, q4)

/-! ## Notions used to state the properties -/

/-- Point at parameter `s` of the cubic Bézier curve with control points `p1 p2 p3 p4`
(Bernstein form). -/
def bezierPoint {α : Type} [CommRing α] (p1 p2 p3 p4 : Point α) (s : α) : Point α :=
  { X := (1 - s) ^ 3 * p1.X + 3 * s * (1 - s) ^ 2 * p2.X + 3 * s ^ 2 * (1 - s) * p3.X
      + s ^ 3 * p4.X
    Y := (1 - s) ^ 3 * p1.Y + 3 * s * (1 - s) ^ 2 * p2.Y + 3 * s ^ 2 * (1 - s) * p3.Y
      + s ^ 3 * p4.Y }

/-- Terminal point of a path primitive: the `End` of a segment, the fourth control point of
a curve. -/
def Intersectable.terminal : Intersectable → Option (Point GoFloat)
  | Intersectable.segment _ e => some e
  | Intersectable.bezierCurve pts => pts.get? 3

/-- One call on the path builder. -/
inductive Cmd where
  | StartAt (p : Point GoFloat) : Cmd
  | Z : Cmd
  | L (isLowerCase : Bool) (x y : GoFloat) : Cmd
  | C (isLowerCase : Bool) (x1 y1 x2 y2 x3 y3 : GoFloat) : Cmd
  | H (isLowerCase : Bool) (x : GoFloat) : Cmd
  | V (isLowerCase : Bool) (y : GoFloat) : Cmd

/-- Effect of one call; `none` is a nil dereference. -/
def step (c : SvgPathContext) : Cmd → Option SvgPathContext
  | Cmd.StartAt p => some (c.StartAt p)
  | Cmd.Z => c.Z
  | Cmd.L l x y => c.L l x y
  | Cmd.C l x1 y1 x2 y2 x3 y3 => c.C l x1 y1 x2 y2 x3 y3
  | Cmd.H l x => c.H l x
  | Cmd.V l y => c.V l y

/-- Effect of a sequence of calls, in order. -/
def run (c : SvgPathContext) : List Cmd → Option SvgPathContext
  | [] => some c
  | cmd :: rest => (step c cmd).bind (fun c1 => run c1 rest)

/-- The rational `x` is a value of the binary format `(prec, emin)`: an integer of at most
`prec` bits times a power of two not below `2 ^ emin`. -/
def InFormat (prec : ℕ) (emin : ℤ) (x : ℚ) : Prop :=
  ∃ m k : ℤ, |m| ≤ 2 ^ prec ∧ emin ≤ k ∧ x = (m : ℚ) * (2 : ℚ) ^ k

/-- Both coordinates of the point are left unchanged by `chopPrecision`. -/
def Point.chopped (p : Point GoFloat) : Prop :=
  chopPrecision p.X = p.X ∧ chopPrecision p.Y = p.Y

instance (p : Point GoFloat) : Decidable p.chopped := by
  unfold Point.chopped; infer_instance

/-- Points held by a path primitive. -/
def Intersectable.points : Intersectable → List (Point GoFloat)
  | Intersectable.segment s e => [s, e]
  | Intersectable.bezierCurve pts => pts

/-- Every coordinate held in `Start`, in `Current` and in the primitives of `Path` is left
unchanged by `chopPrecision`. -/
def SvgPathContext.allChopped (c : SvgPathContext) : Prop :=
  (∀ p, c.Start = some p → p.chopped) ∧ (∀ p, c.Current = some p → p.chopped)
    ∧ ∀ prim ∈ c.Path, ∀ p ∈ prim.points, p.chopped

/-- The rational `q` is a finite binary64 value: rounding to binary64 returns it. -/
def isBinary64 (q : ℚ) : Prop := ofRat64 q = GoFloat.fin q

instance (q : ℚ) : Decidable (isBinary64 q) := by
  unfold isBinary64; infer_instance

/-- The point as a pair of `float64` values. -/
def Point.toGoFloat (p : Point ℚ) : Point GoFloat := ⟨GoFloat.fin p.X, GoFloat.fin p.Y⟩

/-- Both coordinates are finite binary64 values. -/
def Point.isBinary64 (p : Point ℚ) : Prop := D2Svg.isBinary64 p.X ∧ D2Svg.isBinary64 p.Y

instance (p : Point ℚ) : Decidable p.isBinary64 := by
  unfold Point.isBinary64; infer_instance

/-- The context is open: `Start`, `Current` and `TopLeft` are set. -/
def SvgPathContext.isOpen (c : SvgPathContext) : Bool :=
  c.Start.isSome && c.Current.isSome && c.TopLeft.isSome

/-- Number of `StartAt` calls in a sequence. -/
def countStartAt : List Cmd → ℕ
  | [] => 0
  | Cmd.StartAt _ :: rest => countStartAt rest + 1
  | _ :: rest => countStartAt rest

/-- Initial point of a path primitive: the `Start` of a segment, the first control point of
a curve. -/
def Intersectable.initial : Intersectable → Option (Point GoFloat)
  | Intersectable.segment s _ => some s
  | Intersectable.bezierCurve pts => pts.get? 0

/-- End of the chain of primitives `prims` drawn from the point `s`: every primitive must start
where the one before it ends (the first one at `s`); `none` when the chain is broken. -/
def chainEnd (s : Point GoFloat) : List Intersectable → Option (Point GoFloat)
  | [] => some s
  | prim :: rest =>
    if prim.initial = some s then prim.terminal.bind (fun t => chainEnd t rest) else none

/-! ## Pointer-level model of `NewSVGPathContext`, `StartAt` and `Z`

The three functions once more, with the `*geo.Point` values as addresses into a memory of
points, so that an object shared with the caller can be told from a copy: `p.Copy()` puts a
new object at the end of the memory, and an assignment by the caller to the fields of the
object at an address is `List.set`. -/

/-- Memory holding the `geo.Point` objects: the object at address `a` is the element `a`. -/
abbrev Heap := List (Point GoFloat)

/-- A `geo.Segment` holding its two end points by address. -/
structure PtrSegment where
  Start : ℕ
  End : ℕ
  deriving DecidableEq

/-- The struct `SvgPathContext` with its pointer fields as addresses; nil is `none`. -/
structure PtrContext where
  Path : List PtrSegment
  Commands : List String
  Start : Option ℕ
  Current : Option ℕ
  TopLeft : Option ℕ
  ScaleX : GoFloat
  ScaleY : GoFloat
  deriving DecidableEq

/-- The constructor `NewSVGPathContext`: `TopLeft` is `tl.Copy()`. -/
def NewSVGPathContextPtr (h : Heap) (tl : ℕ) (sx sy : GoFloat) : Option (Heap × PtrContext) :=
  match h[tl]? with
  | none => none
  | some v =>
    some (h ++ [v],
      { Path := [], Commands := [], Start := none, Current := none,
        TopLeft := some h.length, ScaleX := sx, ScaleY := sy })

/-- The method `StartAt`: `c.Start = p` keeps the address `p` itself, `c.Current = p.Copy()`
is a new object. -/
def PtrContext.StartAt (c : PtrContext) (h : Heap) (p : ℕ) : Option (Heap × PtrContext) :=
  match h[p]? with
  | none => none
  | some v =>
    some (h ++ [v],
      { c with
        Start := some p
        Commands := c.Commands ++ ["M " ++ fmtV v.X ++ " " ++ fmtV v.Y]
        Current := some h.length })

/-- The method `Z`: the segment holds `c.Current.Copy()` and `c.Start.Copy()`, and `Current`
becomes one more `c.Start.Copy()`. -/
def PtrContext.Z (c : PtrContext) (h : Heap) : Option (Heap × PtrContext) :=
  match c.Current, c.Start with
  | some cur, some st =>
    match h[cur]?, h[st]? with
    | some vc, some vs =>
      some (h ++ [vc, vs, vs],
        { c with
          Path := c.Path ++ [⟨h.length, h.length + 1⟩]
          Commands := c.Commands ++ ["Z"]
          Current := some (h.length + 2) })
    | _, _ => none
  | _, _ => none

/-- The segment read through the memory. -/
def PtrSegment.view (s : PtrSegment) (h : Heap) : Option Intersectable :=
  match h[s.Start]?, h[s.End]? with
  | some a, some b => some (Intersectable.segment a b)
  | _, _ => none

/-- The context read through the memory: every address replaced by the point it holds. -/
def PtrContext.view (c : PtrContext) (h : Heap) : SvgPathContext :=
  { Path := c.Path.filterMap (fun s => s.view h)
    Commands := c.Commands
    Start := c.Start.bind (fun a => h[a]?)
    Current := c.Current.bind (fun a => h[a]?)
    TopLeft := c.TopLeft.bind (fun a => h[a]?)
    ScaleX := c.ScaleX
    ScaleY := c.ScaleY }

/-- Every address held by the context is an object of the memory. -/
def PtrContext.valid (c : PtrContext) (h : Heap) : Prop :=
  (∀ a, c.Start = some a → a < h.length) ∧ (∀ a, c.Current = some a → a < h.length)
    ∧ (∀ a, c.TopLeft = some a → a < h.length)
    ∧ ∀ s ∈ c.Path, s.Start < h.length ∧ s.End < h.length

/-- Go `x <= y` on `float64`: false as soon as one side is NaN. -/
def GoFloat.le : GoFloat → GoFloat → Bool
  | GoFloat.fin a, GoFloat.fin b => decide (a ≤ b)
  | GoFloat.fin _, GoFloat.inf s => !s
  | GoFloat.inf s, GoFloat.fin _ => s
  | GoFloat.inf s, GoFloat.inf t => s || !t
  | _, _ => false

theorem roundHalfEven_sub_le (q : ℚ) : |(roundHalfEven q : ℚ) - q| ≤ 1 / 2 := by
  have h1 := Int.floor_le q
  have h2 := Int.lt_floor_add_one q
  unfold roundHalfEven
  rw [abs_le]
  split_ifs with ha hb hc
  · constructor <;> linarith
  · push_cast; constructor <;> linarith
  · constructor <;> linarith
  · push_cast; constructor <;> linarith

/-- No integer is nearer to `q` than `roundHalfEven q`. -/
theorem roundHalfEven_nearest (q : ℚ) (z : ℤ) :
    |(roundHalfEven q : ℚ) - q| ≤ |(z : ℚ) - q| := by
  have h := roundHalfEven_sub_le q
  by_cases hz : z = roundHalfEven q
  · rw [hz]
  · have h1 : (1 : ℚ) ≤ |(z : ℚ) - (roundHalfEven q : ℚ)| := by
      have : (1 : ℤ) ≤ |z - roundHalfEven q| := Int.one_le_abs (sub_ne_zero.2 hz)
      exact_mod_cast this
    have h2 : |(z : ℚ) - (roundHalfEven q : ℚ)| ≤ |(z : ℚ) - q| + |(roundHalfEven q : ℚ) - q| := by
      have := abs_sub_le (z : ℚ) q (roundHalfEven q)
      rwa [abs_sub_comm q (roundHalfEven q : ℚ)] at this
    linarith

theorem roundHalfEven_intCast (z : ℤ) : roundHalfEven (z : ℚ) = z := by
  have h := roundHalfEven_nearest (z : ℚ) z
  simp only [sub_self, abs_zero] at h
  have h0 : (roundHalfEven (z : ℚ) : ℚ) - z = 0 := abs_eq_zero.1 (le_antisymm h (abs_nonneg _))
  exact_mod_cast sub_eq_zero.1 h0

/-- A bound by an integer is kept by `roundHalfEven`. -/
theorem abs_roundHalfEven_le (q : ℚ) (N : ℤ) (h : |q| ≤ N) : |roundHalfEven q| ≤ N := by
  have h1 := roundHalfEven_sub_le q
  rw [abs_le] at h h1 ⊢
  constructor
  · have : (-(N : ℚ)) - 1 < (roundHalfEven q : ℚ) := by linarith
    have : -N - 1 < roundHalfEven q := by exact_mod_cast this
    omega
  · have : (roundHalfEven q : ℚ) < (N : ℚ) + 1 := by linarith
    have : roundHalfEven q < N + 1 := by exact_mod_cast this
    omega

/-! ## Binary exponent -/

theorem natLog2Aux_spec (fuel : ℕ) :
    ∀ n, n ≤ fuel → n ≠ 0 →
      2 ^ natLog2Aux fuel n ≤ n ∧ n < 2 ^ (natLog2Aux fuel n + 1) := by
  induction fuel with
  | zero => intro n h h0; omega
  | succ fuel ih =>
    intro n h h0
    unfold natLog2Aux
    split_ifs with h2
    · have : n = 1 := by omega
      subst this
      simp
    · have hle : n / 2 ≤ fuel := by omega
      have hne : n / 2 ≠ 0 := by omega
      obtain ⟨h3, h4⟩ := ih (n / 2) hle hne
      rw [pow_succ, pow_succ] at *
      constructor <;> omega

theorem natLog2_spec (n : ℕ) (h : n ≠ 0) : 2 ^ natLog2 n ≤ n ∧ n < 2 ^ (natLog2 n + 1) :=
  natLog2Aux_spec n n le_rfl h

theorem ilog2_spec (q : ℚ) (h : q ≠ 0) :
    (2 : ℚ) ^ ilog2 q ≤ |q| ∧ |q| < (2 : ℚ) ^ (ilog2 q + 1) := by
  have hn : q.num.natAbs ≠ 0 := by simpa using h
  obtain ⟨n1, n2⟩ := natLog2_spec q.num.natAbs hn
  obtain ⟨d1, d2⟩ := natLog2_spec q.den q.den_nz
  have hq : |q| = (q.num.natAbs : ℚ) / (q.den : ℚ) := by
    have h1 : |q| = |(q.num : ℚ)| / |(q.den : ℚ)| := by rw [← abs_div, Rat.num_div_den]
    rw [h1, Nat.abs_cast, ← Int.cast_abs, Int.abs_eq_natAbs, Int.cast_natCast]
  have hd : (0 : ℚ) < q.den := by exact_mod_cast q.den_pos
  have n1q : (2 : ℚ) ^ (natLog2 q.num.natAbs : ℤ) ≤ (q.num.natAbs : ℚ) := by
    rw [zpow_natCast]; exact_mod_cast n1
  have n2q : (q.num.natAbs : ℚ) < (2 : ℚ) ^ ((natLog2 q.num.natAbs : ℤ) + 1) := by
    have : ((natLog2 q.num.natAbs : ℤ) + 1) = ((natLog2 q.num.natAbs + 1 : ℕ) : ℤ) := by push_cast; ring
    rw [this, zpow_natCast]; exact_mod_cast n2
  have d1q : (2 : ℚ) ^ (natLog2 q.den : ℤ) ≤ (q.den : ℚ) := by
    rw [zpow_natCast]; exact_mod_cast d1
  have d2q : (q.den : ℚ) < (2 : ℚ) ^ ((natLog2 q.den : ℤ) + 1) := by
    have : ((natLog2 q.den : ℤ) + 1) = ((natLog2 q.den + 1 : ℕ) : ℤ) := by push_cast; ring
    rw [this, zpow_natCast]; exact_mod_cast d2
  have two : (0 : ℚ) < 2 := by norm_num
  set a : ℤ := (natLog2 q.num.natAbs : ℤ) with ha
  set b : ℤ := (natLog2 q.den : ℤ) with hb
  have hpa : (0 : ℚ) < 2 ^ a := zpow_pos two a
  have hpb : (0 : ℚ) < 2 ^ b := zpow_pos two b
  -- upper bound `|q| < 2 ^ (a - b + 1)` and lower bound `2 ^ (a - b - 1) < |q|`
  have hup : |q| < (2 : ℚ) ^ (a - b + 1) := by
    have e : (2 : ℚ) ^ (a - b + 1) = 2 ^ (a + 1) / 2 ^ b := by
      rw [← zpow_sub₀ two.ne']; congr 1; ring
    rw [hq, e, div_lt_div_iff₀ hd hpb]
    calc (q.num.natAbs : ℚ) * 2 ^ b < 2 ^ (a + 1) * 2 ^ b := by
          exact mul_lt_mul_of_pos_right n2q hpb
      _ ≤ 2 ^ (a + 1) * q.den := by
          exact mul_le_mul_of_nonneg_left d1q (zpow_pos two _).le
  have hlo : (2 : ℚ) ^ (a - b - 1) ≤ |q| := by
    have e : (2 : ℚ) ^ (a - b - 1) = 2 ^ a / 2 ^ (b + 1) := by
      rw [← zpow_sub₀ two.ne']; congr 1; ring
    rw [hq, e, div_le_div_iff₀ (zpow_pos two _) hd]
    calc (2 : ℚ) ^ a * q.den ≤ 2 ^ a * 2 ^ (b + 1) := by
          exact mul_le_mul_of_nonneg_left d2q.le hpa.le
      _ ≤ q.num.natAbs * 2 ^ (b + 1) := by
          exact mul_le_mul_of_nonneg_right n1q (zpow_pos two _).le
  unfold ilog2
  rw [← ha, ← hb]
  split_ifs with hc
  · exact ⟨hc, hup⟩
  · refine ⟨hlo, ?_⟩
    rw [sub_add_cancel]
    exact not_le.1 hc

/-! ## Rounding to a binary format -/

theorem two_zpow_pos (k : ℤ) : (0 : ℚ) < (2 : ℚ) ^ k := zpow_pos (by norm_num) k

theorem two_zpow_le {m n : ℤ} (h : m ≤ n) : (2 : ℚ) ^ m ≤ (2 : ℚ) ^ n :=
  zpow_le_zpow_right₀ (by norm_num) h

theorem two_zpow_add (m n : ℤ) : (2 : ℚ) ^ (m + n) = (2 : ℚ) ^ m * (2 : ℚ) ^ n :=
  zpow_add₀ (by norm_num) m n

theorem roundBinary_zero (prec : ℕ) (emin : ℤ) : roundBinary prec emin 0 = 0 := by
  have h : roundHalfEven (0 : ℚ) = 0 := by simpa using roundHalfEven_intCast 0
  simp [roundBinary, h]

theorem emin_le_ulpExp (prec : ℕ) (emin : ℤ) (q : ℚ) : emin ≤ ulpExp prec emin q :=
  le_max_right _ _

/-- Whatever integer multiple of the unit in the last place is taken, the rounded value is
at least as near. -/
theorem roundBinary_nearest_multiple (prec : ℕ) (emin : ℤ) (q : ℚ) (z : ℤ) :
    |roundBinary prec emin q - q| ≤ |(z : ℚ) * (2 : ℚ) ^ ulpExp prec emin q - q| := by
  have hu := two_zpow_pos (ulpExp prec emin q)
  have h := roundHalfEven_nearest (q / (2 : ℚ) ^ ulpExp prec emin q) z
  have e1 : roundBinary prec emin q - q
      = ((roundHalfEven (q / (2 : ℚ) ^ ulpExp prec emin q) : ℚ)
          - q / (2 : ℚ) ^ ulpExp prec emin q) * (2 : ℚ) ^ ulpExp prec emin q := by
    unfold roundBinary; field_simp
  have e2 : (z : ℚ) * (2 : ℚ) ^ ulpExp prec emin q - q
      = ((z : ℚ) - q / (2 : ℚ) ^ ulpExp prec emin q) * (2 : ℚ) ^ ulpExp prec emin q := by
    field_simp
  rw [e1, e2, abs_mul, abs_mul, abs_of_pos hu]
  exact mul_le_mul_of_nonneg_right h hu.le

/-- The rounding error is at most half a unit in the last place. -/
theorem roundBinary_sub_le (prec : ℕ) (emin : ℤ) (q : ℚ) :
    |roundBinary prec emin q - q| ≤ (2 : ℚ) ^ ulpExp prec emin q / 2 := by
  have hu := two_zpow_pos (ulpExp prec emin q)
  have h := roundHalfEven_sub_le (q / (2 : ℚ) ^ ulpExp prec emin q)
  have e1 : roundBinary prec emin q - q
      = ((roundHalfEven (q / (2 : ℚ) ^ ulpExp prec emin q) : ℚ)
          - q / (2 : ℚ) ^ ulpExp prec emin q) * (2 : ℚ) ^ ulpExp prec emin q := by
    unfold roundBinary; field_simp
  rw [e1, abs_mul, abs_of_pos hu]
  calc _ ≤ 1 / 2 * (2 : ℚ) ^ ulpExp prec emin q := mul_le_mul_of_nonneg_right h hu.le
    _ = _ := by ring

theorem abs_lt_two_zpow_ulpExp (prec : ℕ) (emin : ℤ) (q : ℚ) :
    |q| < (2 : ℚ) ^ (ulpExp prec emin q + prec) := by
  by_cases h : q = 0
  · subst h; simpa using two_zpow_pos _
  · refine lt_of_lt_of_le (ilog2_spec q h).2 (two_zpow_le ?_)
    have : ilog2 q - ((prec : ℤ) - 1) ≤ ulpExp prec emin q := le_max_left _ _
    omega

/-- The rounded value belongs to the format. -/
theorem inFormat_roundBinary (prec : ℕ) (emin : ℤ) (q : ℚ) :
    InFormat prec emin (roundBinary prec emin q) := by
  refine ⟨roundHalfEven (q / (2 : ℚ) ^ ulpExp prec emin q), ulpExp prec emin q, ?_,
    emin_le_ulpExp prec emin q, rfl⟩
  have hu := two_zpow_pos (ulpExp prec emin q)
  have h := abs_lt_two_zpow_ulpExp prec emin q
  rw [two_zpow_add, zpow_natCast] at h
  have h2 : |q / (2 : ℚ) ^ ulpExp prec emin q| ≤ ((2 ^ prec : ℤ) : ℚ) := by
    rw [abs_div, abs_of_pos hu, div_le_iff₀ hu]
    push_cast
    linarith
  exact abs_roundHalfEven_le _ _ h2

/-- No value of the format is nearer to `q` than the rounded value. -/
theorem roundBinary_nearest (prec : ℕ) (emin : ℤ) (hp : 1 ≤ prec) (q x : ℚ)
    (hx : InFormat prec emin x) : |roundBinary prec emin q - q| ≤ |x - q| := by
  obtain ⟨m, k, hm, hk, rfl⟩ := hx
  by_cases hq : q = 0
  · subst hq; simp [roundBinary_zero]
  by_cases hku : ulpExp prec emin q ≤ k
  · -- `x` is a multiple of the unit in the last place
    obtain ⟨j, hj⟩ : ∃ j : ℕ, k = ulpExp prec emin q + j :=
      ⟨(k - ulpExp prec emin q).toNat, by omega⟩
    have e : (m : ℚ) * (2 : ℚ) ^ k = ((m * 2 ^ j : ℤ) : ℚ) * (2 : ℚ) ^ ulpExp prec emin q := by
      rw [hj, two_zpow_add, zpow_natCast]; push_cast; ring
    rw [e]
    exact roundBinary_nearest_multiple prec emin q _
  · -- `x` lies below the binade of `q`
    push_neg at hku
    have hu : ulpExp prec emin q = ilog2 q - ((prec : ℤ) - 1) := by
      unfold ulpExp at hku ⊢
      rcases max_cases (ilog2 q - ((prec : ℤ) - 1)) emin with ⟨h1, _⟩ | ⟨h1, _⟩
      · exact h1
      · rw [h1] at hku; omega
    obtain ⟨hlo, -⟩ := ilog2_spec q hq
    -- `|x| ≤ 2 ^ ilog2 q`
    have hxle : |(m : ℚ) * (2 : ℚ) ^ k| ≤ (2 : ℚ) ^ ilog2 q := by
      rw [abs_mul, abs_of_pos (two_zpow_pos k)]
      have hm' : |(m : ℚ)| ≤ (2 : ℚ) ^ (prec : ℤ) := by
        rw [zpow_natCast]; exact_mod_cast hm
      have hk2 : (2 : ℚ) ^ k ≤ (2 : ℚ) ^ (ilog2 q - prec) := two_zpow_le (by omega)
      calc |(m : ℚ)| * (2 : ℚ) ^ k ≤ (2 : ℚ) ^ (prec : ℤ) * (2 : ℚ) ^ (ilog2 q - prec) :=
            mul_le_mul hm' hk2 (two_zpow_pos k).le (two_zpow_pos _).le
        _ = (2 : ℚ) ^ ilog2 q := by rw [← two_zpow_add]; congr 1; ring
    -- the power of two at the bottom of the binade is a multiple of the unit
    have hpow : (2 : ℚ) ^ ilog2 q = ((2 ^ (prec - 1) : ℤ) : ℚ) * (2 : ℚ) ^ ulpExp prec emin q := by
      rw [hu]; push_cast
      rw [← zpow_natCast, ← two_zpow_add]; congr 1
      have : ((prec - 1 : ℕ) : ℤ) = (prec : ℤ) - 1 := by omega
      rw [this]; ring
    rcases le_or_lt 0 q with hq0 | hq0
    · have h1 := roundBinary_nearest_multiple prec emin q (2 ^ (prec - 1))
      rw [← hpow] at h1
      rw [abs_of_nonneg hq0] at hlo
      have h2 : |(2 : ℚ) ^ ilog2 q - q| = q - (2 : ℚ) ^ ilog2 q := by
        rw [abs_sub_comm]; exact abs_of_nonneg (by linarith)
      have h3 : q - |(m : ℚ) * (2 : ℚ) ^ k| ≤ |(m : ℚ) * (2 : ℚ) ^ k - q| := by
        have := abs_sub_abs_le_abs_sub q ((m : ℚ) * (2 : ℚ) ^ k)
        rw [abs_of_nonneg hq0, abs_sub_comm] at this
        exact this
      linarith
    · have h1 := roundBinary_nearest_multiple prec emin q (-(2 ^ (prec - 1)))
      have e : ((-(2 ^ (prec - 1)) : ℤ) : ℚ) * (2 : ℚ) ^ ulpExp prec emin q
          = -(2 : ℚ) ^ ilog2 q := by
        rw [hpow]; push_cast; ring
      rw [e] at h1
      rw [abs_of_neg hq0] at hlo
      have h2 : |-(2 : ℚ) ^ ilog2 q - q| = -q - (2 : ℚ) ^ ilog2 q := by
        rw [abs_of_nonneg (by linarith)]; ring
      have h3 : -q - |(m : ℚ) * (2 : ℚ) ^ k| ≤ |(m : ℚ) * (2 : ℚ) ^ k - q| := by
        have := abs_sub_abs_le_abs_sub q ((m : ℚ) * (2 : ℚ) ^ k)
        rw [abs_of_neg hq0, abs_sub_comm] at this
        exact this
      linarith

/-- Values of the format are left unchanged. -/
theorem roundBinary_of_inFormat (prec : ℕ) (emin : ℤ) (hp : 1 ≤ prec) (x : ℚ)
    (hx : InFormat prec emin x) : roundBinary prec emin x = x := by
  have h := roundBinary_nearest prec emin hp x x hx
  simp only [sub_self, abs_zero] at h
  exact sub_eq_zero.1 (abs_eq_zero.1 (le_antisymm h (abs_nonneg _)))

/-- Rounding is monotone. -/
theorem roundBinary_mono (prec : ℕ) (emin : ℤ) (hp : 1 ≤ prec) {a b : ℚ} (h : a ≤ b) :
    roundBinary prec emin a ≤ roundBinary prec emin b := by
  by_contra hlt
  push_neg at hlt
  have h1 := roundBinary_nearest prec emin hp a _ (inFormat_roundBinary prec emin b)
  have h2 := roundBinary_nearest prec emin hp b _ (inFormat_roundBinary prec emin a)
  -- with `rb < ra`: `a` is at least the midpoint and `b` at most the midpoint
  rcases h.eq_or_lt with rfl | hab
  · exact lt_irrefl _ hlt
  have ha : roundBinary prec emin a + roundBinary prec emin b ≤ 2 * a := by
    by_contra hc
    push_neg at hc
    rcases abs_cases (roundBinary prec emin a - a) with ⟨e1, _⟩ | ⟨e1, _⟩ <;>
    rcases abs_cases (roundBinary prec emin b - a) with ⟨e2, _⟩ | ⟨e2, _⟩ <;>
    linarith
  have hb : 2 * b ≤ roundBinary prec emin a + roundBinary prec emin b := by
    by_contra hc
    push_neg at hc
    rcases abs_cases (roundBinary prec emin b - b) with ⟨e1, _⟩ | ⟨e1, _⟩ <;>
    rcases abs_cases (roundBinary prec emin a - b) with ⟨e2, _⟩ | ⟨e2, _⟩ <;>
    linarith
  linarith

/-- In the normal range the rounding error is at most `2 ^ (-prec)` times the value. -/
theorem roundBinary_rel_err (prec : ℕ) (emin : ℤ) (q : ℚ)
    (hq : (2 : ℚ) ^ (emin + prec - 1) ≤ |q|) :
    |roundBinary prec emin q - q| ≤ |q| * (2 : ℚ) ^ (-(prec : ℤ)) := by
  have hq0 : q ≠ 0 := by
    rintro rfl
    have := two_zpow_pos (emin + prec - 1)
    simp at hq
    linarith
  obtain ⟨hlo, hhi⟩ := ilog2_spec q hq0
  have hi : emin + prec - 1 < ilog2 q + 1 :=
    (zpow_lt_zpow_iff_right₀ (by norm_num : (1 : ℚ) < 2)).1 (lt_of_le_of_lt hq hhi)
  have hu : ulpExp prec emin q = ilog2 q - ((prec : ℤ) - 1) := by
    unfold ulpExp; exact max_eq_left (by omega)
  have h := roundBinary_sub_le prec emin q
  rw [hu] at h
  have e : (2 : ℚ) ^ (ilog2 q - ((prec : ℤ) - 1)) / 2
      = (2 : ℚ) ^ ilog2 q * (2 : ℚ) ^ (-(prec : ℤ)) := by
    rw [show ilog2 q - ((prec : ℤ) - 1) = ilog2 q + (-(prec : ℤ)) + 1 by ring,
      two_zpow_add, two_zpow_add]
    simp
  rw [e] at h
  exact h.trans (mul_le_mul_of_nonneg_right hlo (two_zpow_pos _).le)

/-- A value of the format above `2 ^ e` in magnitude is a multiple of `2 ^ (e - prec + 1)`. -/
theorem inFormat_multiple (prec : ℕ) (emin : ℤ) (x : ℚ) (hx : InFormat prec emin x) (e : ℤ)
    (h : (2 : ℚ) ^ e < |x|) : ∃ j : ℤ, x = (j : ℚ) * (2 : ℚ) ^ (e - prec + 1) := by
  obtain ⟨m, k, hm, -, rfl⟩ := hx
  by_cases hk : e - prec + 1 ≤ k
  · obtain ⟨i, hi⟩ : ∃ i : ℕ, k = (e - prec + 1) + i := ⟨(k - (e - prec + 1)).toNat, by omega⟩
    refine ⟨m * 2 ^ i, ?_⟩
    rw [hi, two_zpow_add, zpow_natCast]; push_cast; ring
  · exfalso
    push_neg at hk
    rw [abs_mul, abs_of_pos (two_zpow_pos k)] at h
    have hm' : |(m : ℚ)| ≤ (2 : ℚ) ^ (prec : ℤ) := by
      rw [zpow_natCast]; exact_mod_cast hm
    have hk2 : (2 : ℚ) ^ k ≤ (2 : ℚ) ^ (e - prec) := two_zpow_le (by omega)
    have : |(m : ℚ)| * (2 : ℚ) ^ k ≤ (2 : ℚ) ^ e := by
      calc |(m : ℚ)| * (2 : ℚ) ^ k ≤ (2 : ℚ) ^ (prec : ℤ) * (2 : ℚ) ^ (e - prec) :=
            mul_le_mul hm' hk2 (two_zpow_pos k).le (two_zpow_pos _).le
        _ = (2 : ℚ) ^ e := by rw [← two_zpow_add]; congr 1; ring
    linarith

/-- Two different values of the format, one of them above `2 ^ e` in magnitude, are at least
`2 ^ (e - prec + 1)` apart. -/
theorem inFormat_gap (prec : ℕ) (emin : ℤ) (hp : 1 ≤ prec) (y s : ℚ)
    (hy : InFormat prec emin y) (hs : InFormat prec emin s) (e : ℤ)
    (h : (2 : ℚ) ^ e < |y|) (hne : s ≠ y) : (2 : ℚ) ^ (e - prec + 1) ≤ |s - y| := by
  have hg := two_zpow_pos (e - prec + 1)
  obtain ⟨jy, hjy⟩ := inFormat_multiple prec emin y hy e h
  by_cases hse : (2 : ℚ) ^ e < |s|
  · obtain ⟨js, hjs⟩ := inFormat_multiple prec emin s hs e hse
    have hj : js ≠ jy := by
      rintro rfl; exact hne (hjs.trans hjy.symm)
    have h1 : (1 : ℚ) ≤ |(js : ℚ) - (jy : ℚ)| := by
      have : (1 : ℤ) ≤ |js - jy| := Int.one_le_abs (sub_ne_zero.2 hj)
      exact_mod_cast this
    rw [hjs, hjy, ← sub_mul, abs_mul, abs_of_pos hg]
    calc (2 : ℚ) ^ (e - prec + 1) = 1 * (2 : ℚ) ^ (e - prec + 1) := (one_mul _).symm
      _ ≤ _ := mul_le_mul_of_nonneg_right h1 hg.le
  · push_neg at hse
    have hpow : (2 : ℚ) ^ e = ((2 ^ (prec - 1) : ℤ) : ℚ) * (2 : ℚ) ^ (e - prec + 1) := by
      push_cast
      rw [← zpow_natCast, ← two_zpow_add]; congr 1
      have : ((prec - 1 : ℕ) : ℤ) = (prec : ℤ) - 1 := by omega
      rw [this]; ring
    have hjy2 : (2 ^ (prec - 1) : ℤ) < |jy| := by
      have h' := h
      rw [hjy, abs_mul, abs_of_pos hg, hpow] at h'
      have := lt_of_mul_lt_mul_right h' hg.le
      exact_mod_cast this
    have hjy3 : ((2 ^ (prec - 1) : ℤ) : ℚ) + 1 ≤ |(jy : ℚ)| := by
      have : (2 ^ (prec - 1) : ℤ) + 1 ≤ |jy| := hjy2
      exact_mod_cast this
    have hyabs : (2 : ℚ) ^ e + (2 : ℚ) ^ (e - prec + 1) ≤ |y| := by
      rw [hjy, abs_mul, abs_of_pos hg, hpow]
      calc _ = (((2 ^ (prec - 1) : ℤ) : ℚ) + 1) * (2 : ℚ) ^ (e - prec + 1) := by ring
        _ ≤ _ := mul_le_mul_of_nonneg_right hjy3 hg.le
    have := abs_sub_abs_le_abs_sub y s
    rw [abs_sub_comm y s] at this
    linarith

/-! ## `math.Round` -/

theorem roundHalfAway_sub_le (a : ℚ) : |(roundHalfAway a : ℚ) - a| ≤ 1 / 2 := by
  unfold roundHalfAway
  rw [abs_le]
  split_ifs with h
  · have h1 := Int.floor_le (a + 1 / 2)
    have h2 := Int.lt_floor_add_one (a + 1 / 2)
    constructor <;> linarith
  · have h1 := Int.floor_le (-a + 1 / 2)
    have h2 := Int.lt_floor_add_one (-a + 1 / 2)
    push_cast
    constructor <;> linarith

/-- A value less than one half away from the integer `n` is rounded to `n`. -/
theorem roundHalfAway_eq (a : ℚ) (n : ℤ) (h : |a - n| < 1 / 2) : roundHalfAway a = n := by
  have h1 := roundHalfAway_sub_le a
  rw [abs_lt] at h
  rw [abs_le] at h1
  have h2 : (roundHalfAway a : ℚ) < (n : ℚ) + 1 := by linarith
  have h3 : (n : ℚ) - 1 < (roundHalfAway a : ℚ) := by linarith
  have h4 : roundHalfAway a < n + 1 := by exact_mod_cast h2
  have h5 : n - 1 < roundHalfAway a := by exact_mod_cast h3
  omega

/-! ## Arithmetic of `GoFloat` on finite values -/

theorem inFormat_zero (prec : ℕ) (emin : ℤ) : InFormat prec emin 0 :=
  ⟨0, emin, by simp, le_rfl, by simp⟩

theorem abs_roundBinary_le (prec : ℕ) (emin : ℤ) (hp : 1 ≤ prec) (q : ℚ) :
    |roundBinary prec emin q| ≤ 2 * |q| := by
  have h := roundBinary_nearest prec emin hp q 0 (inFormat_zero prec emin)
  have h2 := abs_sub_abs_le_abs_sub (roundBinary prec emin q) q
  rw [zero_sub, abs_neg] at h
  linarith

theorem ofRat64_eq (q : ℚ) (h : |roundBinary 53 (-1074) q| ≤ maxFloat64) :
    ofRat64 q = GoFloat.fin (roundBinary 53 (-1074) q) := by
  unfold ofRat64; rw [if_neg (not_lt.2 h)]

theorem ofRat32_eq (q : ℚ) (h : |roundBinary 24 (-149) q| ≤ maxFloat32) :
    ofRat32 q = GoFloat.fin (roundBinary 24 (-149) q) := by
  unfold ofRat32; rw [if_neg (not_lt.2 h)]

theorem fin_mul_fin (a b : ℚ) : GoFloat.fin a * GoFloat.fin b = ofRat64 (a * b) := rfl

theorem fin_div_fin (a b : ℚ) (hb : b ≠ 0) : GoFloat.fin a / GoFloat.fin b = ofRat64 (a / b) := by
  show GoFloat.div _ _ = _
  simp [GoFloat.div, hb]

theorem maxFloat32_eq : (340282346638528859811704183484516925440 : ℚ) = maxFloat32 := by
  norm_num [maxFloat32]

theorem maxFloat32_le_maxFloat64 : 4 * maxFloat32 + 20000 ≤ maxFloat64 := by
  norm_num [maxFloat32, maxFloat64]

/-- Division of a single precision value by `10000` does not overflow. -/
theorem fin_div_10000 (y : ℚ) (hy : |y| ≤ maxFloat32) :
    GoFloat.fin y / GoFloat.fin 10000 = GoFloat.fin (roundBinary 53 (-1074) (y / 10000)) := by
  rw [fin_div_fin _ _ (by norm_num), ofRat64_eq]
  have h := abs_roundBinary_le 53 (-1074) (by norm_num) (y / 10000)
  have h2 : |y / 10000| ≤ |y| := by
    rw [abs_div]; exact div_le_self (abs_nonneg y) (by norm_num)
  have h3 := maxFloat32_le_maxFloat64
  have h4 := abs_nonneg y
  linarith

/-! ## `chopPrecision` is idempotent -/

theorem chopPrecision_nan : chopPrecision GoFloat.nan = GoFloat.nan := rfl

theorem chopPrecision_inf (s : Bool) : chopPrecision (GoFloat.inf s) = GoFloat.inf s := by
  have h0 : ¬ ((10000 : ℚ) < 0) := by norm_num
  have h1 : GoFloat.inf s * GoFloat.fin 10000 = GoFloat.inf s := by
    show GoFloat.mul _ _ = _
    simp [GoFloat.mul, h0]
  have h2 : GoFloat.inf s / GoFloat.fin 10000 = GoFloat.inf s := by
    show GoFloat.div _ _ = _
    simp [GoFloat.div, h0]
  rw [chopPrecision, h1]
  show GoFloat.round (GoFloat.inf s / GoFloat.fin 10000) = _
  rw [h2]; rfl

/-- What the first half of `chopPrecision` yields on a finite value, when finite, is a single
precision value. -/
theorem toFloat32_mul_fin (x y : ℚ)
    (h : GoFloat.toFloat32 (GoFloat.fin x * GoFloat.fin 10000) = GoFloat.fin y) :
    InFormat 24 (-149) y ∧ |y| ≤ maxFloat32 := by
  rw [fin_mul_fin] at h
  unfold ofRat64 at h
  split_ifs at h with h1
  · simp [GoFloat.toFloat32] at h
  · simp only [GoFloat.toFloat32] at h
    unfold ofRat32 at h
    split_ifs at h with h2
    simp only [GoFloat.fin.injEq] at h
    subst h
    exact ⟨inFormat_roundBinary _ _ _, not_lt.1 h2⟩

/-- Integers up to `13743895` in magnitude are fixed points of `chopPrecision`. -/
theorem chopPrecision_int_small (n : ℤ) (h : |n| ≤ 13743895) :
    chopPrecision (GoFloat.fin (n : ℚ)) = GoFloat.fin (n : ℚ) := by
  have hq : |(n : ℚ)| ≤ 13743895 := by exact_mod_cast h
  have hnn := abs_nonneg (n : ℚ)
  have hm32 := maxFloat32_eq
  have hm64 := maxFloat32_le_maxFloat64
  -- the product by `10000` is exact
  have hf1 : InFormat 53 (-1074) ((n : ℚ) * 10000) := by
    refine ⟨n * 10000, 0, ?_, by norm_num, by push_cast; simp⟩
    rw [abs_mul]; norm_num; omega
  have hv : |(n : ℚ) * 10000| ≤ 137438950000 := by
    rw [abs_mul]; norm_num; linarith
  have e1 : GoFloat.fin (n : ℚ) * GoFloat.fin 10000 = GoFloat.fin ((n : ℚ) * 10000) := by
    rw [fin_mul_fin, ofRat64_eq, roundBinary_of_inFormat _ _ (by norm_num) _ hf1]
    rw [roundBinary_of_inFormat _ _ (by norm_num) _ hf1]
    linarith
  -- single precision rounding moves it by at most `4096`
  have hnear : |roundBinary 24 (-149) ((n : ℚ) * 10000) - (n : ℚ) * 10000| ≤ 4096 := by
    have hb : |(n : ℚ) * 10000 / 8192| ≤ ((2 ^ 24 : ℤ) : ℚ) := by
      rw [abs_div]; norm_num; linarith
    have hx : InFormat 24 (-149)
        ((roundHalfEven ((n : ℚ) * 10000 / 8192) : ℚ) * (2 : ℚ) ^ (13 : ℤ)) :=
      ⟨_, 13, abs_roundHalfEven_le _ _ hb, by norm_num, rfl⟩
    have h1 := roundBinary_nearest 24 (-149) (by norm_num) ((n : ℚ) * 10000) _ hx
    have h2 := roundHalfEven_sub_le ((n : ℚ) * 10000 / 8192)
    have e : (roundHalfEven ((n : ℚ) * 10000 / 8192) : ℚ) * (2 : ℚ) ^ (13 : ℤ) - (n : ℚ) * 10000
        = ((roundHalfEven ((n : ℚ) * 10000 / 8192) : ℚ) - (n : ℚ) * 10000 / 8192) * 8192 := by
      norm_num; ring
    rw [e, abs_mul] at h1
    norm_num at h1
    linarith
  have hr32 : |roundBinary 24 (-149) ((n : ℚ) * 10000)| ≤ 137438954096 := by
    have := abs_sub_abs_le_abs_sub (roundBinary 24 (-149) ((n : ℚ) * 10000)) ((n : ℚ) * 10000)
    linarith
  have e2 : GoFloat.toFloat32 (GoFloat.fin ((n : ℚ) * 10000))
      = GoFloat.fin (roundBinary 24 (-149) ((n : ℚ) * 10000)) := by
    show ofRat32 _ = _
    rw [ofRat32_eq]; linarith
  have e3 := fin_div_10000 (roundBinary 24 (-149) ((n : ℚ) * 10000)) (by linarith)
  -- the quotient stays within `7 / 16` of `n`
  rw [abs_le] at hnear
  have hlo : (n : ℚ) - 7 / 16 ≤ roundBinary 24 (-149) ((n : ℚ) * 10000) / 10000 := by
    rw [le_div_iff₀ (by norm_num)]; linarith
  have hhi : roundBinary 24 (-149) ((n : ℚ) * 10000) / 10000 ≤ (n : ℚ) + 7 / 16 := by
    rw [div_le_iff₀ (by norm_num)]; linarith
  have flo : InFormat 53 (-1074) ((n : ℚ) - 7 / 16) := by
    refine ⟨16 * n - 7, -4, ?_, by norm_num, by push_cast; norm_num; ring⟩
    rw [abs_le] at h ⊢; norm_num; constructor <;> omega
  have fhi : InFormat 53 (-1074) ((n : ℚ) + 7 / 16) := by
    refine ⟨16 * n + 7, -4, ?_, by norm_num, by push_cast; norm_num; ring⟩
    rw [abs_le] at h ⊢; norm_num; constructor <;> omega
  have mlo := roundBinary_mono 53 (-1074) (by norm_num) hlo
  have mhi := roundBinary_mono 53 (-1074) (by norm_num) hhi
  rw [roundBinary_of_inFormat _ _ (by norm_num) _ flo] at mlo
  rw [roundBinary_of_inFormat _ _ (by norm_num) _ fhi] at mhi
  rw [chopPrecision, e1, e2, e3]
  show GoFloat.fin _ = _
  rw [roundHalfAway_eq _ n (by rw [abs_lt]; constructor <;> linarith)]

/-- A single precision value of magnitude at most `2 ^ 37` is taken by the second half of
`chopPrecision` to an integer of magnitude at most `13743895`. -/
theorem abs_roundHalfAway_div_le (y : ℚ) (h : |y| ≤ 137438953472) :
    |roundHalfAway (roundBinary 53 (-1074) (y / 10000))| ≤ 13743895 := by
  rw [abs_le] at h
  have hlo : -(13743895 : ℚ) - 7 / 16 ≤ y / 10000 := by
    rw [le_div_iff₀ (by norm_num)]; linarith
  have hhi : y / 10000 ≤ (13743895 : ℚ) + 7 / 16 := by
    rw [div_le_iff₀ (by norm_num)]; linarith
  have flo : InFormat 53 (-1074) (-(13743895 : ℚ) - 7 / 16) :=
    ⟨-219902327, -4, by norm_num, by norm_num, by norm_num⟩
  have fhi : InFormat 53 (-1074) ((13743895 : ℚ) + 7 / 16) :=
    ⟨219902327, -4, by norm_num, by norm_num, by norm_num⟩
  have mlo := roundBinary_mono 53 (-1074) (by norm_num) hlo
  have mhi := roundBinary_mono 53 (-1074) (by norm_num) hhi
  rw [roundBinary_of_inFormat _ _ (by norm_num) _ flo] at mlo
  rw [roundBinary_of_inFormat _ _ (by norm_num) _ fhi] at mhi
  have hr := roundHalfAway_sub_le (roundBinary 53 (-1074) (y / 10000))
  rw [abs_le] at hr ⊢
  constructor
  · have : (-13743896 : ℚ) < (roundHalfAway (roundBinary 53 (-1074) (y / 10000)) : ℚ) := by
      linarith
    have : (-13743896 : ℤ) < roundHalfAway (roundBinary 53 (-1074) (y / 10000)) := by
      exact_mod_cast this
    omega
  · have : (roundHalfAway (roundBinary 53 (-1074) (y / 10000)) : ℚ) < (13743896 : ℚ) := by
      linarith
    have : roundHalfAway (roundBinary 53 (-1074) (y / 10000)) < (13743896 : ℤ) := by
      exact_mod_cast this
    omega

theorem two_zpow_neg_53 : (2 : ℚ) ^ (-((53 : ℕ) : ℤ)) = 1 / 9007199254740992 := by
  norm_num [zpow_neg]

theorem two_zpow_normal_le_one : (2 : ℚ) ^ ((-1074 : ℤ) + ((53 : ℕ) : ℤ) - 1) ≤ 1 := by
  have := two_zpow_le (show (-1074 : ℤ) + ((53 : ℕ) : ℤ) - 1 ≤ 0 by norm_num)
  simpa using this

/-- Above `2 ^ 37` the first half of `chopPrecision`, applied to the result of
`chopPrecision`, gives back the single precision value the result was computed from. -/
theorem toFloat32_mul_roundHalfAway (y : ℚ) (hy : InFormat 24 (-149) y)
    (hmax : |y| ≤ maxFloat32) (hbig : 137438953472 < |y|) :
    GoFloat.toFloat32
        (GoFloat.fin (roundHalfAway (roundBinary 53 (-1074) (y / 10000)) : ℚ)
          * GoFloat.fin 10000)
      = GoFloat.fin y := by
  have hm64 := maxFloat32_le_maxFloat64
  have hc := two_zpow_neg_53
  have hone := two_zpow_normal_le_one
  have hydiv : |y / 10000| = |y| / 10000 := by rw [abs_div]; norm_num
  -- the quotient and its rounding to an integer
  have hz := roundBinary_rel_err 53 (-1074) (y / 10000) (by rw [hydiv]; linarith)
  have hn := roundHalfAway_sub_le (roundBinary 53 (-1074) (y / 10000))
  rw [hc, hydiv] at hz
  set z : ℚ := roundBinary 53 (-1074) (y / 10000) with hzdef
  set n : ℤ := roundHalfAway z with hndef
  have h1 : |(n : ℚ) * 10000 - y| ≤ 5000 + |y| / 9007199254740992 := by
    have e : (n : ℚ) * 10000 - y = 10000 * (((n : ℚ) - z) + (z - y / 10000)) := by ring
    rw [e, abs_mul, abs_of_pos (by norm_num : (0 : ℚ) < 10000)]
    have := abs_add ((n : ℚ) - z) (z - y / 10000)
    linarith
  have h1a : |(n : ℚ) * 10000| ≤ |y| + (5000 + |y| / 9007199254740992) := by
    have := abs_sub_abs_le_abs_sub ((n : ℚ) * 10000) y
    linarith
  have h1b : |y| - (5000 + |y| / 9007199254740992) ≤ |(n : ℚ) * 10000| := by
    have := abs_sub_abs_le_abs_sub y ((n : ℚ) * 10000)
    rw [abs_sub_comm] at this
    linarith
  -- the product by `10000`
  have h2 := roundBinary_rel_err 53 (-1074) ((n : ℚ) * 10000) (by linarith)
  rw [hc] at h2
  have h3 : |roundBinary 53 (-1074) ((n : ℚ) * 10000) - y|
      ≤ 5000 + |y| / 9007199254740992
        + (|y| + (5000 + |y| / 9007199254740992)) / 9007199254740992 := by
    have e : roundBinary 53 (-1074) ((n : ℚ) * 10000) - y
        = (roundBinary 53 (-1074) ((n : ℚ) * 10000) - (n : ℚ) * 10000)
          + ((n : ℚ) * 10000 - y) := by ring
    rw [e]
    have := abs_add (roundBinary 53 (-1074) ((n : ℚ) * 10000) - (n : ℚ) * 10000)
      ((n : ℚ) * 10000 - y)
    linarith
  have e1 : GoFloat.fin (n : ℚ) * GoFloat.fin 10000
      = GoFloat.fin (roundBinary 53 (-1074) ((n : ℚ) * 10000)) := by
    rw [fin_mul_fin, ofRat64_eq]
    have := abs_roundBinary_le 53 (-1074) (by norm_num) ((n : ℚ) * 10000)
    linarith
  -- single precision rounding returns to `y`
  have hback : roundBinary 24 (-149) (roundBinary 53 (-1074) ((n : ℚ) * 10000)) = y := by
    by_contra hne
    have hs := inFormat_roundBinary 24 (-149) (roundBinary 53 (-1074) ((n : ℚ) * 10000))
    have hnear := roundBinary_nearest 24 (-149) (by norm_num)
      (roundBinary 53 (-1074) ((n : ℚ) * 10000)) y hy
    set s : ℚ := roundBinary 24 (-149) (roundBinary 53 (-1074) ((n : ℚ) * 10000)) with hsdef
    have hy0 : y ≠ 0 := by
      rintro rfl; simp at hbig; linarith
    obtain ⟨ylo, yhi⟩ := ilog2_spec y hy0
    have g1 := inFormat_gap 24 (-149) (by norm_num) y s hy hs 37 (by norm_num; linarith) hne
    have g2 := inFormat_gap 24 (-149) (by norm_num) y s hy hs (ilog2 y - 1)
      (lt_of_lt_of_le (zpow_lt_zpow_right₀ (by norm_num) (by omega)) ylo) hne
    have e25 : (2 : ℚ) ^ (ilog2 y + 1)
        = (2 : ℚ) ^ (ilog2 y - 1 - ((24 : ℕ) : ℤ) + 1) * 33554432 := by
      rw [show ilog2 y + 1 = (ilog2 y - 1 - ((24 : ℕ) : ℤ) + 1) + 25 by push_cast; ring,
        two_zpow_add]
      norm_num
    rw [e25] at yhi
    norm_num at g1
    have htri : |s - y| ≤ |s - roundBinary 53 (-1074) ((n : ℚ) * 10000)|
        + |roundBinary 53 (-1074) ((n : ℚ) * 10000) - y| := abs_sub_le _ _ _
    rw [abs_sub_comm y _] at hnear
    have hy' := abs_nonneg y
    linarith
  rw [e1]
  show ofRat32 _ = _
  rw [ofRat32_eq, hback]
  rw [hback]; exact hmax

/-- The function `chopPrecision` is idempotent on every value. -/
theorem chopPrecision_chopPrecision (f : GoFloat) :
    chopPrecision (chopPrecision f) = chopPrecision f := by
  cases f with
  | nan => rfl
  | inf s => rw [chopPrecision_inf, chopPrecision_inf]
  | fin x =>
    cases hT : GoFloat.toFloat32 (GoFloat.fin x * GoFloat.fin 10000) with
    | nan =>
      have e : chopPrecision (GoFloat.fin x) = GoFloat.nan := by
        rw [chopPrecision, hT]; rfl
      rw [e]; rfl
    | inf s =>
      have e : chopPrecision (GoFloat.fin x) = GoFloat.inf s := by
        have h := chopPrecision_inf s
        have h1 : GoFloat.inf s * GoFloat.fin 10000 = GoFloat.inf s := by
          show GoFloat.mul _ _ = _
          simp [GoFloat.mul, show ¬ ((10000 : ℚ) < 0) by norm_num]
        rw [chopPrecision, h1] at h
        rw [chopPrecision, hT]
        exact h
      rw [e, chopPrecision_inf]
    | fin y =>
      obtain ⟨hy, hmax⟩ := toFloat32_mul_fin x y hT
      have e : chopPrecision (GoFloat.fin x)
          = GoFloat.fin (roundHalfAway (roundBinary 53 (-1074) (y / 10000)) : ℚ) := by
        rw [chopPrecision, hT, fin_div_10000 y hmax]; rfl
      rw [e]
      by_cases hn : |roundHalfAway (roundBinary 53 (-1074) (y / 10000))| ≤ 13743895
      · exact chopPrecision_int_small _ hn
      · have hbig : 137438953472 < |y| := by
          by_contra hle
          exact hn (abs_roundHalfAway_div_le y (not_lt.1 hle))
        rw [chopPrecision, toFloat32_mul_roundHalfAway y hy hmax hbig, fin_div_10000 y hmax]
        rfl

/-! ## Bézier sub-segment -/

/-- C1. In exact arithmetic (any commutative ring, in particular the reals) the points
returned by `BezierCurveSegment` are the control points of the sub-arc: the curve they define,
taken at `s`, is the original curve at `t0 + s * (t1 - t0)`; the first returned point is the
original curve at `t0` and the last one the original curve at `t1`. -/
theorem bezierCurveSegment_subarc {α : Type} [CommRing α] (p1 p2 p3 p4 : Point α)
    (t0 t1 s : α) :
    bezierPoint (BezierCurveSegment p1 p2 p3 p4 t0 t1).1
        (BezierCurveSegment p1 p2 p3 p4 t0 t1).2.1
        (BezierCurveSegment p1 p2 p3 p4 t0 t1).2.2.1
        (BezierCurveSegment p1 p2 p3 p4 t0 t1).2.2.2 s
      = bezierPoint p1 p2 p3 p4 (t0 + s * (t1 - t0))
    ∧ (BezierCurveSegment p1 p2 p3 p4 t0 t1).1 = bezierPoint p1 p2 p3 p4 t0
    ∧ (BezierCurveSegment p1 p2 p3 p4 t0 t1).2.2.2 = bezierPoint p1 p2 p3 p4 t1 := by
  refine ⟨?_, ?_, ?_⟩
  · simp only [BezierCurveSegment, bezierPoint, Point.mk.injEq]
    constructor <;> ring
  · simp only [BezierCurveSegment, bezierPoint, Point.mk.injEq]
    constructor <;> ring
  · simp only [BezierCurveSegment, bezierPoint, Point.mk.injEq]
    constructor <;> ring

theorem ofNat_eq_ofRat64 (n : ℕ) : (OfNat.ofNat n : GoFloat) = ofRat64 (n : ℚ) := rfl

theorem fin_add_fin (a b : ℚ) : GoFloat.fin a + GoFloat.fin b = ofRat64 (a + b) := rfl

theorem fin_sub_fin (a b : ℚ) : GoFloat.fin a - GoFloat.fin b = ofRat64 (a - b) := by
  show ofRat64 (a + -b) = ofRat64 (a - b)
  rw [sub_eq_add_neg]

set_option maxRecDepth 100000 in
theorem ofRat64_small :
    ofRat64 0 = GoFloat.fin 0 ∧ ofRat64 1 = GoFloat.fin 1 ∧ ofRat64 2 = GoFloat.fin 2
      ∧ ofRat64 3 = GoFloat.fin 3 := by
  decide!

/-- On the full range the `float64` computation returns the control points it was given,
when their coordinates are finite. -/
theorem bezier_full_range_float64 (p1 p2 p3 p4 : Point ℚ)
    (h1 : p1.isBinary64) (h2 : p2.isBinary64) (h3 : p3.isBinary64) (h4 : p4.isBinary64) :
    BezierCurveSegment p1.toGoFloat p2.toGoFloat p3.toGoFloat p4.toGoFloat
        (GoFloat.fin 0) (GoFloat.fin 1)
      = (p1.toGoFloat, p2.toGoFloat, p3.toGoFloat, p4.toGoFloat) := by
  obtain ⟨h1x, h1y⟩ := h1
  obtain ⟨h2x, h2y⟩ := h2
  obtain ⟨h3x, h3y⟩ := h3
  obtain ⟨h4x, h4y⟩ := h4
  unfold isBinary64 at *
  obtain ⟨z0, z1, z2, z3⟩ := ofRat64_small
  simp [BezierCurveSegment, Point.toGoFloat, ofNat_eq_ofRat64, fin_add_fin, fin_sub_fin,
    fin_mul_fin, z0, z1, z2, z3, h1x, h1y, h2x, h2y, h3x, h3y, h4x, h4y]

/-- C10. `BezierCurveSegment p1 p2 p3 p4 0 1` returns `(p1, p2, p3, p4)`: in exact arithmetic
(any commutative ring, in particular the reals), and also as computed in `float64` on points
with finite coordinates. -/
theorem bezierCurveSegment_full_range :
    (∀ (α : Type) [CommRing α] (p1 p2 p3 p4 : Point α),
      BezierCurveSegment p1 p2 p3 p4 0 1 = (p1, p2, p3, p4))
    ∧ ∀ p1 p2 p3 p4 : Point ℚ,
        p1.isBinary64 → p2.isBinary64 → p3.isBinary64 → p4.isBinary64 →
        BezierCurveSegment p1.toGoFloat p2.toGoFloat p3.toGoFloat p4.toGoFloat
            (GoFloat.fin 0) (GoFloat.fin 1)
          = (p1.toGoFloat, p2.toGoFloat, p3.toGoFloat, p4.toGoFloat) := by
  refine ⟨?_, bezier_full_range_float64⟩
  intro α _ p1 p2 p3 p4
  simp [BezierCurveSegment]

set_option maxRecDepth 100000 in
/-- C10, instance: the `float64` curve with control points `(0,0) (1,2) (3,4) (5,0)`. -/
theorem bezierCurveSegment_full_range_witness :
    BezierCurveSegment (Point.toGoFloat ⟨0, 0⟩) (Point.toGoFloat ⟨1, 2⟩)
        (Point.toGoFloat ⟨3, 4⟩) (Point.toGoFloat ⟨5, 0⟩) (GoFloat.fin 0) (GoFloat.fin 1)
      = (Point.toGoFloat ⟨0, 0⟩, Point.toGoFloat ⟨1, 2⟩, Point.toGoFloat ⟨3, 4⟩,
          Point.toGoFloat ⟨5, 0⟩) :=
  bezierCurveSegment_full_range.2 ⟨0, 0⟩ ⟨1, 2⟩ ⟨3, 4⟩ ⟨5, 0⟩
    (by decide!) (by decide!) (by decide!) (by decide!)

/-! ## The path builder: basic facts -/

theorem isOpen_iff (c : SvgPathContext) :
    c.isOpen = true ↔
      (∃ st, c.Start = some st) ∧ (∃ cur, c.Current = some cur) ∧ ∃ tl, c.TopLeft = some tl := by
  simp [SvgPathContext.isOpen, Option.isSome_iff_exists, and_assoc]

/-- On an open context every call succeeds, keeps the context open, appends one token, and
appends one primitive unless it is a `StartAt`. -/
theorem step_of_isOpen (c : SvgPathContext) (cmd : Cmd) (h : c.isOpen = true) :
    ∃ c1, step c cmd = some c1 ∧ c1.isOpen = true
      ∧ c1.Commands.length = c.Commands.length + 1
      ∧ c1.Path.length + countStartAt [cmd] = c.Path.length + 1 := by
  obtain ⟨⟨st, hs⟩, ⟨cur, hc⟩, ⟨tl, ht⟩⟩ := (isOpen_iff c).1 h
  cases cmd with
  | StartAt p =>
    refine ⟨_, rfl, ?_, ?_, ?_⟩
    · simp [SvgPathContext.isOpen, SvgPathContext.StartAt, ht]
    · simp [SvgPathContext.StartAt]
    · simp [SvgPathContext.StartAt, countStartAt]
  | Z =>
    simp [step, SvgPathContext.Z, hs, hc, ht, SvgPathContext.isOpen, countStartAt]
  | L l x y =>
    cases l <;>
      simp [step, SvgPathContext.L, SvgPathContext.Absolute, SvgPathContext.Relative, hs, hc, ht,
        SvgPathContext.isOpen, countStartAt]
  | C l x1 y1 x2 y2 x3 y3 =>
    cases l <;>
      simp [step, SvgPathContext.C, SvgPathContext.Absolute, SvgPathContext.Relative, hs, hc, ht,
        SvgPathContext.isOpen, countStartAt]
  | H l x =>
    cases l <;>
      simp [step, SvgPathContext.H, SvgPathContext.Absolute, SvgPathContext.Relative, hs, hc, ht,
        SvgPathContext.isOpen, countStartAt]
  | V l y =>
    cases l <;>
      simp [step, SvgPathContext.V, SvgPathContext.Absolute, SvgPathContext.Relative, hs, hc, ht,
        SvgPathContext.isOpen, countStartAt]

theorem countStartAt_cons (cmd : Cmd) (rest : List Cmd) :
    countStartAt (cmd :: rest) = countStartAt [cmd] + countStartAt rest := by
  cases cmd <;> simp [countStartAt, Nat.add_comm]

/-- On an open context every sequence of calls succeeds; tokens and primitives are counted. -/
theorem run_of_isOpen (cmds : List Cmd) :
    ∀ c : SvgPathContext, c.isOpen = true →
      ∃ c1, run c cmds = some c1 ∧ c1.isOpen = true
        ∧ c1.Commands.length = c.Commands.length + cmds.length
        ∧ c1.Path.length + countStartAt cmds = c.Path.length + cmds.length := by
  induction cmds with
  | nil => intro c h; exact ⟨c, rfl, h, by simp, by simp [countStartAt]⟩
  | cons cmd rest ih =>
    intro c h
    obtain ⟨c1, h1, ho1, hl1, hp1⟩ := step_of_isOpen c cmd h
    obtain ⟨c2, h2, ho2, hl2, hp2⟩ := ih c1 ho1
    refine ⟨c2, by simp [run, h1, h2], ho2, ?_, ?_⟩
    · simp only [List.length_cons]
      omega
    · rw [countStartAt_cons]
      simp only [List.length_cons]
      omega

/-- C2 (amended). From a fresh context, any sequence of calls that begins with `StartAt`
succeeds and leaves as many tokens as primitives plus the number of `StartAt` calls made. -/
theorem token_shape_parity (tl : Point GoFloat) (sx sy : GoFloat) (p : Point GoFloat)
    (cmds : List Cmd) :
    ∃ c, run (NewSVGPathContext tl sx sy) (Cmd.StartAt p :: cmds) = some c
      ∧ c.Commands.length = c.Path.length + countStartAt (Cmd.StartAt p :: cmds) := by
  obtain ⟨c, hr, -, hl, hp⟩ :=
    run_of_isOpen cmds ((NewSVGPathContext tl sx sy).StartAt p)
      (by simp [SvgPathContext.isOpen, SvgPathContext.StartAt, NewSVGPathContext])
  refine ⟨c, by simpa [run, step] using hr, ?_⟩
  simp [SvgPathContext.StartAt, NewSVGPathContext] at hl hp
  simp only [countStartAt]
  omega

/-- C2, counterexample. After `StartAt; StartAt` there are two tokens and no primitive. -/
theorem token_shape_parity_fails :
    (run (NewSVGPathContext ⟨GoFloat.fin 0, GoFloat.fin 0⟩ (GoFloat.fin 1) (GoFloat.fin 1))
        [Cmd.StartAt ⟨GoFloat.fin 0, GoFloat.fin 0⟩,
         Cmd.StartAt ⟨GoFloat.fin 0, GoFloat.fin 0⟩]).map
      (fun c => (c.Commands.length, c.Path.length)) = some (2, 0) := by
  rfl

/-- C6. Position tracking: on an open context, `L`, `C`, `H` and `V` succeed, append one
primitive, and leave `Current` at the terminal point of that primitive; `Z` succeeds and
leaves `Current` equal to `Start`, which it does not move. -/
theorem position_tracking (c : SvgPathContext) (h : c.isOpen = true) :
    (∀ l x y, ∃ c1 prim, c.L l x y = some c1 ∧ c1.Path = c.Path ++ [prim]
        ∧ c1.Current.isSome = true ∧ c1.Current = prim.terminal)
    ∧ (∀ l x1 y1 x2 y2 x3 y3, ∃ c1 prim, c.C l x1 y1 x2 y2 x3 y3 = some c1
        ∧ c1.Path = c.Path ++ [prim] ∧ c1.Current.isSome = true ∧ c1.Current = prim.terminal)
    ∧ (∀ l x, ∃ c1 prim, c.H l x = some c1 ∧ c1.Path = c.Path ++ [prim]
        ∧ c1.Current.isSome = true ∧ c1.Current = prim.terminal)
    ∧ (∀ l y, ∃ c1 prim, c.V l y = some c1 ∧ c1.Path = c.Path ++ [prim]
        ∧ c1.Current.isSome = true ∧ c1.Current = prim.terminal)
    ∧ ∃ c1, c.Z = some c1 ∧ c1.Start = c.Start ∧ c1.Current = c1.Start := by
  obtain ⟨⟨st, hs⟩, ⟨cur, hc⟩, ⟨tl, ht⟩⟩ := (isOpen_iff c).1 h
  refine ⟨?_, ?_, ?_, ?_, ?_⟩
  · intro l x y
    cases l <;>
      simp [SvgPathContext.L, SvgPathContext.Absolute, SvgPathContext.Relative, hc, ht,
        Intersectable.terminal]
  · intro l x1 y1 x2 y2 x3 y3
    cases l <;>
      simp [SvgPathContext.C, SvgPathContext.Absolute, SvgPathContext.Relative, hc, ht,
        Intersectable.terminal]
  · intro l x
    cases l <;>
      simp [SvgPathContext.H, SvgPathContext.Absolute, SvgPathContext.Relative, hc, ht,
        Intersectable.terminal]
  · intro l y
    cases l <;>
      simp [SvgPathContext.V, SvgPathContext.Absolute, SvgPathContext.Relative, hc, ht,
        Intersectable.terminal]
  · simp [SvgPathContext.Z, hc, hs]

/-- C6, instance: the context opened at the origin with unit scale. -/
theorem position_tracking_witness :
    ((NewSVGPathContext ⟨GoFloat.fin 0, GoFloat.fin 0⟩ (GoFloat.fin 1) (GoFloat.fin 1)).StartAt
        ⟨GoFloat.fin 3, GoFloat.fin 4⟩).isOpen = true
    ∧ ∃ c1, ((NewSVGPathContext ⟨GoFloat.fin 0, GoFloat.fin 0⟩ (GoFloat.fin 1)
          (GoFloat.fin 1)).StartAt ⟨GoFloat.fin 3, GoFloat.fin 4⟩).L false (GoFloat.fin 10)
          (GoFloat.fin 0) = some c1
        ∧ c1.Current = (c1.Path.getLast?).bind Intersectable.terminal :=
  ⟨rfl, by
    obtain ⟨c1, prim, h1, h2, -, h4⟩ :=
      (position_tracking
        ((NewSVGPathContext ⟨GoFloat.fin 0, GoFloat.fin 0⟩ (GoFloat.fin 1)
          (GoFloat.fin 1)).StartAt ⟨GoFloat.fin 3, GoFloat.fin 4⟩) rfl).1
        false (GoFloat.fin 10) (GoFloat.fin 0)
    exact ⟨c1, h1, by simp [h2, h4]⟩⟩

/-- C7. Axis preservation: with `Current` and `TopLeft` set, absolute `H` appends the segment
from `Current` to an end point whose `Y` is the previous `Current.Y` and moves `Current`
there; absolute `V` does the same with `X`. -/
theorem absolute_hv_keeps_axis (c : SvgPathContext) (cur tl : Point GoFloat)
    (hc : c.Current = some cur) (ht : c.TopLeft = some tl) :
    (∀ x, ∃ c1 e, c.H false x = some c1
        ∧ c1.Path = c.Path ++ [Intersectable.segment cur e]
        ∧ c1.Current = some e ∧ e.Y = cur.Y)
    ∧ (∀ y, ∃ c1 e, c.V false y = some c1
        ∧ c1.Path = c.Path ++ [Intersectable.segment cur e]
        ∧ c1.Current = some e ∧ e.X = cur.X) := by
  constructor
  · intro x
    simp [SvgPathContext.H, SvgPathContext.Absolute, SvgPathContext.Relative, hc, ht]
  · intro y
    simp [SvgPathContext.V, SvgPathContext.Absolute, SvgPathContext.Relative, hc, ht]

/-- C7, instance: an absolute `H` from the pen position `(3, 4)` keeps `Y = 4`. -/
theorem absolute_hv_keeps_axis_witness :
    ∃ c1 e, ((NewSVGPathContext ⟨GoFloat.fin 0, GoFloat.fin 0⟩ (GoFloat.fin 2)
          (GoFloat.fin 2)).StartAt ⟨GoFloat.fin 3, GoFloat.fin 4⟩).H false (GoFloat.fin 10)
          = some c1
      ∧ c1.Path = [Intersectable.segment ⟨GoFloat.fin 3, GoFloat.fin 4⟩ e]
      ∧ c1.Current = some e ∧ e.Y = GoFloat.fin 4 :=
  (absolute_hv_keeps_axis
    ((NewSVGPathContext ⟨GoFloat.fin 0, GoFloat.fin 0⟩ (GoFloat.fin 2)
      (GoFloat.fin 2)).StartAt ⟨GoFloat.fin 3, GoFloat.fin 4⟩)
    ⟨GoFloat.fin 3, GoFloat.fin 4⟩ ⟨GoFloat.fin 0, GoFloat.fin 0⟩ rfl rfl).1 (GoFloat.fin 10)

/-! ## Dash heuristic -/

theorem maxFloat64_pos : 0 < maxFloat64 := by
  norm_num [maxFloat64]

/-- The three outcomes of rounding to binary64. -/
theorem ofRat64_cases (q : ℚ) :
    (ofRat64 q = GoFloat.fin (roundBinary 53 (-1074) q)
        ∧ |roundBinary 53 (-1074) q| ≤ maxFloat64)
      ∨ (ofRat64 q = GoFloat.inf false ∧ maxFloat64 < roundBinary 53 (-1074) q)
      ∨ (ofRat64 q = GoFloat.inf true ∧ roundBinary 53 (-1074) q < -maxFloat64) := by
  by_cases h : maxFloat64 < |roundBinary 53 (-1074) q|
  · by_cases hq : q < 0
    · refine Or.inr (Or.inr ⟨by simp [ofRat64, h, hq], ?_⟩)
      have h0 := roundBinary_mono 53 (-1074) (by norm_num) hq.le
      rw [roundBinary_zero] at h0
      rw [abs_of_nonpos h0] at h
      linarith
    · refine Or.inr (Or.inl ⟨by simp [ofRat64, h, hq], ?_⟩)
      have h0 := roundBinary_mono 53 (-1074) (by norm_num) (not_lt.1 hq)
      rw [roundBinary_zero] at h0
      rwa [abs_of_nonneg h0] at h
  · exact Or.inl ⟨by simp [ofRat64, h], not_lt.1 h⟩

/-- Rounding to binary64 is monotone, overflow included. -/
theorem ofRat64_mono {a b : ℚ} (h : a ≤ b) : (ofRat64 a).le (ofRat64 b) = true := by
  have hm := roundBinary_mono 53 (-1074) (by norm_num) h
  have hpos := maxFloat64_pos
  rcases ofRat64_cases a with ⟨ea, ha⟩ | ⟨ea, ha⟩ | ⟨ea, ha⟩ <;>
  rcases ofRat64_cases b with ⟨eb, hb⟩ | ⟨eb, hb⟩ | ⟨eb, hb⟩ <;>
  rw [ea, eb] <;> simp only [GoFloat.le, decide_eq_true_eq, Bool.not_false, Bool.not_true,
    Bool.or_true, Bool.or_false, Bool.true_or, Bool.false_or] <;>
  first
    | exact hm
    | (exfalso; have := abs_le.1 ha; linarith)
    | (exfalso; have := abs_le.1 hb; linarith)
    | (exfalso; linarith)

/-- Multiplying by a positive finite value is monotone for `<=`. -/
theorem le_mul_fin (x y : GoFloat) (c : ℚ) (hc : 0 < c) (h : x.le y = true) :
    (x * GoFloat.fin c).le (y * GoFloat.fin c) = true := by
  have hc0 : c ≠ 0 := hc.ne'
  have hcn : ¬ c < 0 := not_lt.2 hc.le
  cases x with
  | nan => simp [GoFloat.le] at h
  | inf s =>
    cases y with
    | nan => simp [GoFloat.le] at h
    | inf t =>
      show GoFloat.le (GoFloat.mul _ _) (GoFloat.mul _ _) = true
      simpa [GoFloat.mul, hc0, hcn] using h
    | fin b =>
      show GoFloat.le (GoFloat.mul _ _) (GoFloat.mul _ _) = true
      simp only [GoFloat.le] at h
      subst h
      simp only [GoFloat.mul, hc0, hcn, if_false, decide_False, Bool.xor_false]
      rcases ofRat64_cases (b * c) with ⟨e, _⟩ | ⟨e, _⟩ | ⟨e, _⟩ <;> rw [e] <;> rfl
  | fin a =>
    cases y with
    | nan => simp [GoFloat.le] at h
    | inf t =>
      show GoFloat.le (GoFloat.mul _ _) (GoFloat.mul _ _) = true
      simp only [GoFloat.le, Bool.not_eq_true'] at h
      subst h
      simp only [GoFloat.mul, hc0, hcn, if_false, decide_False, Bool.xor_false]
      rcases ofRat64_cases (a * c) with ⟨e, _⟩ | ⟨e, _⟩ | ⟨e, _⟩ <;> rw [e] <;> rfl
    | fin b =>
      simp only [GoFloat.le, decide_eq_true_eq] at h
      rw [fin_mul_fin, fin_mul_fin]
      exact ofRat64_mono (mul_le_mul_of_nonneg_right h hc.le)

/-- Adding a finite value is monotone for `<=`. -/
theorem le_add_fin (x y : GoFloat) (c : ℚ) (h : x.le y = true) :
    (x + GoFloat.fin c).le (y + GoFloat.fin c) = true := by
  cases x with
  | nan => simp [GoFloat.le] at h
  | inf s =>
    cases y with
    | nan => simp [GoFloat.le] at h
    | inf t =>
      show GoFloat.le (GoFloat.add _ _) (GoFloat.add _ _) = true
      simpa [GoFloat.add] using h
    | fin b =>
      show GoFloat.le (GoFloat.add _ _) (GoFloat.add _ _) = true
      simp only [GoFloat.le] at h
      subst h
      simp only [GoFloat.add]
      rcases ofRat64_cases (b + c) with ⟨e, _⟩ | ⟨e, _⟩ | ⟨e, _⟩ <;> rw [e] <;> rfl
  | fin a =>
    cases y with
    | nan => simp [GoFloat.le] at h
    | inf t =>
      show GoFloat.le (GoFloat.add _ _) (GoFloat.add _ _) = true
      simp only [GoFloat.le, Bool.not_eq_true'] at h
      subst h
      simp only [GoFloat.add]
      rcases ofRat64_cases (a + c) with ⟨e, _⟩ | ⟨e, _⟩ | ⟨e, _⟩ <;> rw [e] <;> rfl
    | fin b =>
      simp only [GoFloat.le, decide_eq_true_eq] at h
      rw [fin_add_fin, fin_add_fin]
      exact ofRat64_mono (by linarith)

set_option maxRecDepth 100000 in
/-- The three constants of `GetStrokeDashAttributes` as `float64` values. -/
theorem dash_constants :
    (-0.6 : GoFloat) = GoFloat.fin (-(5404319552844595 / 9007199254740992))
      ∧ (10.6 : GoFloat) = GoFloat.fin (5967269506265907 / 562949953421312)
      ∧ (0.5 : GoFloat) = GoFloat.fin (1 / 2) := by
  decide!

/-- The finite values of the logarithm's argument `-0.6 * w + 10.6` as computed in `float64`:
the product is rounded, then the sum. -/
theorem dash_arg_eq (w a : ℚ) (h : (-0.6 * GoFloat.fin w + 10.6 : GoFloat) = GoFloat.fin a) :
    a = roundBinary 53 (-1074)
          (roundBinary 53 (-1074) (-(5404319552844595 / 9007199254740992) * w)
            + 5967269506265907 / 562949953421312) := by
  obtain ⟨c1, c2, _⟩ := dash_constants
  rw [c1, c2, fin_mul_fin] at h
  rcases ofRat64_cases (-(5404319552844595 / 9007199254740992) * w)
    with ⟨e, _⟩ | ⟨e, _⟩ | ⟨e, _⟩
  · rw [e, fin_add_fin] at h
    rcases ofRat64_cases (roundBinary 53 (-1074) (-(5404319552844595 / 9007199254740992) * w)
        + 5967269506265907 / 562949953421312) with ⟨e2, _⟩ | ⟨e2, _⟩ | ⟨e2, _⟩
    · rw [e2] at h
      exact (GoFloat.fin.inj h).symm
    · rw [e2] at h; cases h
    · rw [e2] at h; cases h
  · rw [e] at h; cases h
  · rw [e] at h; cases h

/-- As computed in `float64` the logarithm's argument does not grow with the stroke width. -/
theorem dash_arg_antitone (w1 w2 a1 a2 : ℚ) (hw : w1 ≤ w2)
    (h1 : (-0.6 * GoFloat.fin w1 + 10.6 : GoFloat) = GoFloat.fin a1)
    (h2 : (-0.6 * GoFloat.fin w2 + 10.6 : GoFloat) = GoFloat.fin a2) : a2 ≤ a1 := by
  rw [dash_arg_eq w1 a1 h1, dash_arg_eq w2 a2 h2]
  apply roundBinary_mono 53 (-1074) (by norm_num)
  have := roundBinary_mono 53 (-1074) (by norm_num)
    (show -(5404319552844595 / 9007199254740992 : ℚ) * w2
        ≤ -(5404319552844595 / 9007199254740992) * w1 by nlinarith)
  linarith

/-- A finite result of rounding to binary64 is a binary64 value. -/
theorem isBinary64_of_ofRat64 (q a : ℚ) (h : ofRat64 q = GoFloat.fin a) : isBinary64 a := by
  rcases ofRat64_cases q with ⟨e, hb⟩ | ⟨e, _⟩ | ⟨e, _⟩
  · rw [e] at h
    have ha := GoFloat.fin.inj h
    subst ha
    have hfix := roundBinary_of_inFormat 53 (-1074) (by norm_num) _
      (inFormat_roundBinary 53 (-1074) q)
    unfold isBinary64
    rw [ofRat64_eq _ (by rw [hfix]; exact hb), hfix]
  · rw [e] at h; cases h
  · rw [e] at h; cases h

/-- A finite value of the logarithm's argument is a binary64 value. -/
theorem dash_arg_isBinary64 (w a : ℚ)
    (h : (-0.6 * GoFloat.fin w + 10.6 : GoFloat) = GoFloat.fin a) : isBinary64 a := by
  obtain ⟨c1, c2, _⟩ := dash_constants
  rw [c1, c2, fin_mul_fin] at h
  rcases ofRat64_cases (-(5404319552844595 / 9007199254740992) * w)
    with ⟨e, _⟩ | ⟨e, _⟩ | ⟨e, _⟩
  · rw [e, fin_add_fin] at h
    exact isBinary64_of_ofRat64 _ _ h
  · rw [e] at h; cases h
  · rw [e] at h; cases h

/-- As computed in `float64` on finite inputs, `math.Log10` being any function that is monotone
on the positive `float64` values: the dash size does not shrink, the logarithm's argument and
`scale` do not grow when the stroke width grows. -/
theorem dash_float64_mono (log10 : GoFloat → GoFloat)
    (hmono : ∀ a b : ℚ, isBinary64 a → isBinary64 b → 0 < a → a ≤ b →
      (log10 (GoFloat.fin a)).le (log10 (GoFloat.fin b)) = true)
    (g w1 w2 a1 a2 : ℚ) (hg : 0 < g) (hw : w1 < w2)
    (h1 : (-0.6 * GoFloat.fin w1 + 10.6 : GoFloat) = GoFloat.fin a1)
    (h2 : (-0.6 * GoFloat.fin w2 + 10.6 : GoFloat) = GoFloat.fin a2)
    (_p1 : 0 < a1) (p2 : 0 < a2) :
    ((GetStrokeDashAttributes log10 (GoFloat.fin w1) (GoFloat.fin g)).1).le
        (GetStrokeDashAttributes log10 (GoFloat.fin w2) (GoFloat.fin g)).1 = true
    ∧ a2 ≤ a1
    ∧ (strokeDashScale log10 (GoFloat.fin w2)).le
        (strokeDashScale log10 (GoFloat.fin w1)) = true := by
  refine ⟨?_, dash_arg_antitone w1 w2 a1 a2 hw.le h1 h2, ?_⟩
  · simp only [GetStrokeDashAttributes, fin_mul_fin]
    exact ofRat64_mono (mul_le_mul_of_nonneg_right hw.le hg.le)
  · obtain ⟨_, _, c3⟩ := dash_constants
    simp only [strokeDashScale]
    rw [h1, h2, c3]
    exact le_add_fin _ _ _ (le_mul_fin _ _ _ (by norm_num)
      (hmono a2 a1 (dash_arg_isBinary64 w2 a2 h2) (dash_arg_isBinary64 w1 a1 h1) p2
        (dash_arg_antitone w1 w2 a1 a2 hw.le h1 h2)))

/-- C8 (amended). For a positive `dashGapSize` and stroke widths `w1 < w2` keeping
`-0.6 * w + 10.6` positive. In exact real arithmetic, with `math.Log10` the base 10 logarithm:
the dash size is strictly larger at `w2`, and `scale`, the factor from dash size to gap size,
is strictly smaller at `w2`. As computed in `float64` on finite inputs, with `math.Log10` any
function that is monotone on the positive `float64` values: the dash size at `w2` is not smaller
than at `w1`, the logarithm's argument at `w2` is not larger than at `w1`, and `scale` at `w2`
is not larger than at `w1`. In both readings the gap size returned is `scale` times the dash
size. -/
theorem dash_monotone :
    (∀ g w1 w2 : ℝ, 0 < g → w1 < w2 → 0 < -0.6 * w1 + 10.6 → 0 < -0.6 * w2 + 10.6 →
      (GetStrokeDashAttributes (Real.logb 10) w1 g).1
          < (GetStrokeDashAttributes (Real.logb 10) w2 g).1
      ∧ strokeDashScale (Real.logb 10) w2 < strokeDashScale (Real.logb 10) w1
      ∧ (GetStrokeDashAttributes (Real.logb 10) w1 g).2
          = strokeDashScale (Real.logb 10) w1 * (GetStrokeDashAttributes (Real.logb 10) w1 g).1
      ∧ (GetStrokeDashAttributes (Real.logb 10) w2 g).2
          = strokeDashScale (Real.logb 10) w2
              * (GetStrokeDashAttributes (Real.logb 10) w2 g).1)
    ∧ ∀ (log10 : GoFloat → GoFloat),
        (∀ a b : ℚ, isBinary64 a → isBinary64 b → 0 < a → a ≤ b →
          (log10 (GoFloat.fin a)).le (log10 (GoFloat.fin b)) = true) →
        ∀ g w1 w2 a1 a2 : ℚ, 0 < g → w1 < w2 →
          (-0.6 * GoFloat.fin w1 + 10.6 : GoFloat) = GoFloat.fin a1 →
          (-0.6 * GoFloat.fin w2 + 10.6 : GoFloat) = GoFloat.fin a2 →
          0 < a1 → 0 < a2 →
          ((GetStrokeDashAttributes log10 (GoFloat.fin w1) (GoFloat.fin g)).1).le
              (GetStrokeDashAttributes log10 (GoFloat.fin w2) (GoFloat.fin g)).1 = true
          ∧ a2 ≤ a1
          ∧ (strokeDashScale log10 (GoFloat.fin w2)).le
              (strokeDashScale log10 (GoFloat.fin w1)) = true
          ∧ (GetStrokeDashAttributes log10 (GoFloat.fin w1) (GoFloat.fin g)).2
              = strokeDashScale log10 (GoFloat.fin w1)
                  * (GetStrokeDashAttributes log10 (GoFloat.fin w1) (GoFloat.fin g)).1
          ∧ (GetStrokeDashAttributes log10 (GoFloat.fin w2) (GoFloat.fin g)).2
              = strokeDashScale log10 (GoFloat.fin w2)
                  * (GetStrokeDashAttributes log10 (GoFloat.fin w2) (GoFloat.fin g)).1 := by
  constructor
  · intro g w1 w2 hg hw _ h2
    refine ⟨?_, ?_, rfl, rfl⟩
    · simp only [GetStrokeDashAttributes]
      exact mul_lt_mul_of_pos_right hw hg
    · simp only [strokeDashScale]
      have hlt : -0.6 * w2 + 10.6 < -0.6 * w1 + 10.6 := by linarith
      have hlog := Real.logb_lt_logb (by norm_num : (1 : ℝ) < 10) h2 hlt
      linarith
  · intro log10 hmono g w1 w2 a1 a2 hg hw h1 h2 p1 p2
    have h := dash_float64_mono log10 hmono g w1 w2 a1 a2 hg hw h1 h2 p1 p2
    exact ⟨h.1, h.2.1, h.2.2, rfl, rfl⟩

set_option maxRecDepth 100000 in
/-- C8, instance: gap size `1`, widths `1 < 2`, over the reals and in `float64` (there with the
identity in the place of `math.Log10`; the logarithm's argument is `10` at the width `1` and
the `float64` value `9.4` at the width `2`). -/
theorem dash_monotone_witness :
    ((GetStrokeDashAttributes (Real.logb 10) (1 : ℝ) 1).1
        < (GetStrokeDashAttributes (Real.logb 10) (2 : ℝ) 1).1
      ∧ strokeDashScale (Real.logb 10) (2 : ℝ) < strokeDashScale (Real.logb 10) (1 : ℝ))
    ∧ ((-0.6 * GoFloat.fin 1 + 10.6 : GoFloat) = GoFloat.fin 10
      ∧ (-0.6 * GoFloat.fin 2 + 10.6 : GoFloat) = ofRat64 (47 / 5)
      ∧ ((GetStrokeDashAttributes (fun x => x) (GoFloat.fin 1) (GoFloat.fin 1)).1).le
          (GetStrokeDashAttributes (fun x => x) (GoFloat.fin 2) (GoFloat.fin 1)).1 = true
      ∧ (strokeDashScale (fun x => x) (GoFloat.fin 2)).le
          (strokeDashScale (fun x => x) (GoFloat.fin 1)) = true) :=
  ⟨⟨(dash_monotone.1 1 1 2 (by norm_num) (by norm_num) (by norm_num) (by norm_num)).1,
    (dash_monotone.1 1 1 2 (by norm_num) (by norm_num) (by norm_num) (by norm_num)).2.1⟩,
   by decide!, by decide!,
   (dash_monotone.2 (fun x => x)
      (fun a b _ _ _ hab => by simpa [GoFloat.le] using hab)
      1 1 2 10 (5291729562160333 / 562949953421312) (by norm_num) (by norm_num)
      (by decide!) (by decide!) (by norm_num) (by norm_num)).1,
   (dash_monotone.2 (fun x => x)
      (fun a b _ _ _ hab => by simpa [GoFloat.le] using hab)
      1 1 2 10 (5291729562160333 / 562949953421312) (by norm_num) (by norm_num)
      (by decide!) (by decide!) (by norm_num) (by norm_num)).2.2.1⟩

set_option maxRecDepth 100000 in
/-- C8, counterexample. Over the reals: with `dashGapSize = 0` the dash size is `0` at both
widths `1 < 2` (and the logarithm's argument is positive at both), so it does not grow. In
`float64`: at the widths `1 < 1 + 2⁻⁵²` the logarithm's argument is `10` at both, so `scale` is
the same at both whatever `math.Log10` returns; and with `dashGapSize` the smallest positive
`float64` value `2⁻¹⁰⁷⁴` the dash size is the same at both. -/
theorem dash_monotone_fails :
    ((1 : ℝ) < 2 ∧ (0 : ℝ) < -0.6 * 1 + 10.6 ∧ (0 : ℝ) < -0.6 * 2 + 10.6
      ∧ ¬ ((GetStrokeDashAttributes (Real.logb 10) (1 : ℝ) 0).1
          < (GetStrokeDashAttributes (Real.logb 10) (2 : ℝ) 0).1))
    ∧ (isBinary64 (1 + 1 / 2 ^ 52) ∧ isBinary64 (1 / 2 ^ 1074)
      ∧ (-0.6 * GoFloat.fin 1 + 10.6 : GoFloat) = GoFloat.fin 10
      ∧ (-0.6 * GoFloat.fin (1 + 1 / 2 ^ 52) + 10.6 : GoFloat) = GoFloat.fin 10
      ∧ (∀ log10 : GoFloat → GoFloat,
          strokeDashScale log10 (GoFloat.fin (1 + 1 / 2 ^ 52))
            = strokeDashScale log10 (GoFloat.fin 1))
      ∧ ∀ log10 : GoFloat → GoFloat,
          (GetStrokeDashAttributes log10 (GoFloat.fin (1 + 1 / 2 ^ 52))
              (GoFloat.fin (1 / 2 ^ 1074))).1
            = (GetStrokeDashAttributes log10 (GoFloat.fin 1) (GoFloat.fin (1 / 2 ^ 1074))).1) := by
  have e1 : (-0.6 * GoFloat.fin 1 + 10.6 : GoFloat) = GoFloat.fin 10 := by decide!
  have e2 : (-0.6 * GoFloat.fin (1 + 1 / 2 ^ 52) + 10.6 : GoFloat) = GoFloat.fin 10 := by
    decide!
  have e3 : GoFloat.fin (1 + 1 / 2 ^ 52) * GoFloat.fin (1 / 2 ^ 1074)
      = GoFloat.fin 1 * GoFloat.fin (1 / 2 ^ 1074) := by decide!
  refine ⟨⟨by norm_num, by norm_num, by norm_num, ?_⟩, by decide!, by decide!, e1, e2, ?_, ?_⟩
  · simp [GetStrokeDashAttributes]
  · intro log10
    simp only [strokeDashScale]
    rw [e1, e2]
  · intro log10
    simp only [GetStrokeDashAttributes]
    exact e3

/-! ## Scenario -/

set_option maxRecDepth 100000 in
/-- C9. Closed triangle: with `TopLeft = (0, 0)` and unit scales, `StartAt (0, 0)`, absolute
`L 10 0`, absolute `L 10 10`, `Z` gives the path data `M 0 0 L 10 0 L 10 10 Z`, the three
segments `(0,0)-(10,0)`, `(10,0)-(10,10)`, `(10,10)-(0,0)`, and `Current = (0, 0)`. -/
theorem closed_triangle :
    (run (NewSVGPathContext ⟨GoFloat.fin 0, GoFloat.fin 0⟩ (GoFloat.fin 1) (GoFloat.fin 1))
        [Cmd.StartAt ⟨GoFloat.fin 0, GoFloat.fin 0⟩,
         Cmd.L false (GoFloat.fin 10) (GoFloat.fin 0),
         Cmd.L false (GoFloat.fin 10) (GoFloat.fin 10),
         Cmd.Z]).map (fun c => (c.PathData, c.Path, c.Current))
      = some ("M 0 0 L 10 0 L 10 10 Z",
          [Intersectable.segment ⟨GoFloat.fin 0, GoFloat.fin 0⟩ ⟨GoFloat.fin 10, GoFloat.fin 0⟩,
           Intersectable.segment ⟨GoFloat.fin 10, GoFloat.fin 0⟩ ⟨GoFloat.fin 10, GoFloat.fin 10⟩,
           Intersectable.segment ⟨GoFloat.fin 10, GoFloat.fin 10⟩ ⟨GoFloat.fin 0, GoFloat.fin 0⟩],
          some ⟨GoFloat.fin 0, GoFloat.fin 0⟩) := by
  decide!

/-! ## Precision normalizer -/

set_option maxRecDepth 100000 in
/-- C4, the code at the claim's examples. `0.5 * 10000 = 5000` and `1.25 * 10000 = 12500` are
single precision values, yet `chopPrecision` returns `1` for `0.5` and `1` for `1.25`: the
division by `10000` is done before `math.Round`, which therefore rounds to an integer. -/
theorem chopPrecision_rounds_to_integer :
    ofRat32 5000 = GoFloat.fin 5000 ∧ chopPrecision (GoFloat.fin (1 / 2)) = GoFloat.fin 1
    ∧ ofRat32 12500 = GoFloat.fin 12500 ∧ chopPrecision (GoFloat.fin (5 / 4)) = GoFloat.fin 1 := by
  decide!

/-- C5. Precision idempotence: `chopPrecision (chopPrecision x) = chopPrecision x` for every
finite `x` (and for the infinities and NaN as values of the model). -/
theorem chopPrecision_idempotent (x : GoFloat) :
    chopPrecision (chopPrecision x) = chopPrecision x :=
  chopPrecision_chopPrecision x


/-! ## Stored coordinates -/

theorem chopped_mk (a b : GoFloat) :
    (Point.mk (chopPrecision a) (chopPrecision b)).chopped :=
  ⟨chopPrecision_chopPrecision a, chopPrecision_chopPrecision b⟩

/-- Result of `L` when `Current` and `TopLeft` are set: the end point has chopped
coordinates. -/
theorem L_result (c : SvgPathContext) (cur tl : Point GoFloat) (hcur : c.Current = some cur)
    (ht : c.TopLeft = some tl) (l : Bool) (x y : GoFloat) :
    ∃ e : Point GoFloat, e.chopped ∧ c.L l x y = some { c with
      Path := c.Path ++ [Intersectable.segment cur e]
      Commands := c.Commands ++ ["L " ++ fmtV e.X ++ " " ++ fmtV e.Y]
      Current := some e } := by
  cases l
  · simp only [SvgPathContext.L, SvgPathContext.Absolute, SvgPathContext.Relative, hcur, ht,
      Bool.false_eq_true, if_false]
    exact ⟨_, chopped_mk _ _, rfl⟩
  · simp only [SvgPathContext.L, SvgPathContext.Absolute, SvgPathContext.Relative, hcur, ht,
      if_true]
    exact ⟨_, chopped_mk _ _, rfl⟩

/-- Result of `C` when `Current` and `TopLeft` are set. -/
theorem C_result (c : SvgPathContext) (cur tl : Point GoFloat) (hcur : c.Current = some cur)
    (ht : c.TopLeft = some tl) (l : Bool) (x1 y1 x2 y2 x3 y3 : GoFloat) :
    ∃ q1 q2 q3 : Point GoFloat, q1.chopped ∧ q2.chopped ∧ q3.chopped
      ∧ c.C l x1 y1 x2 y2 x3 y3 = some { c with
        Path := c.Path ++ [Intersectable.bezierCurve [cur, q1, q2, q3]]
        Commands := c.Commands ++ ["C " ++ fmtV q1.X ++ " " ++ fmtV q1.Y ++ " "
          ++ fmtV q2.X ++ " " ++ fmtV q2.Y ++ " " ++ fmtV q3.X ++ " " ++ fmtV q3.Y]
        Current := some q3 } := by
  cases l
  · simp only [SvgPathContext.C, SvgPathContext.Absolute, SvgPathContext.Relative, hcur, ht,
      Bool.false_eq_true, if_false]
    exact ⟨_, _, _, chopped_mk _ _, chopped_mk _ _, chopped_mk _ _, rfl⟩
  · simp only [SvgPathContext.C, SvgPathContext.Absolute, SvgPathContext.Relative, hcur, ht,
      if_true]
    exact ⟨_, _, _, chopped_mk _ _, chopped_mk _ _, chopped_mk _ _, rfl⟩

/-- Result of `H` when `Current` and `TopLeft` are set: the end point has chopped
coordinates if `Current` has. -/
theorem H_result (c : SvgPathContext) (cur tl : Point GoFloat) (hcur : c.Current = some cur)
    (ht : c.TopLeft = some tl) (hcu : cur.chopped) (l : Bool) (x : GoFloat) :
    ∃ e : Point GoFloat, e.chopped ∧ c.H l x = some { c with
      Path := c.Path ++ [Intersectable.segment cur e]
      Commands := c.Commands ++ ["H " ++ fmtV e.X]
      Current := some e } := by
  cases l
  · simp only [SvgPathContext.H, SvgPathContext.Absolute, SvgPathContext.Relative, hcur, ht,
      Bool.false_eq_true, if_false]
    exact ⟨⟨chopPrecision (tl.X + c.ScaleX * x), cur.Y⟩,
      ⟨chopPrecision_chopPrecision _, hcu.2⟩, rfl⟩
  · simp only [SvgPathContext.H, SvgPathContext.Absolute, SvgPathContext.Relative, hcur, ht,
      if_true]
    exact ⟨_, chopped_mk _ _, rfl⟩

/-- Result of `V` when `Current` and `TopLeft` are set: the end point has chopped
coordinates if `Current` has. -/
theorem V_result (c : SvgPathContext) (cur tl : Point GoFloat) (hcur : c.Current = some cur)
    (ht : c.TopLeft = some tl) (hcu : cur.chopped) (l : Bool) (y : GoFloat) :
    ∃ e : Point GoFloat, e.chopped ∧ c.V l y = some { c with
      Path := c.Path ++ [Intersectable.segment cur e]
      Commands := c.Commands ++ ["V " ++ fmtV e.Y]
      Current := some e } := by
  cases l
  · simp only [SvgPathContext.V, SvgPathContext.Absolute, SvgPathContext.Relative, hcur, ht,
      Bool.false_eq_true, if_false]
    exact ⟨⟨cur.X, chopPrecision (tl.Y + c.ScaleY * y)⟩,
      ⟨hcu.1, chopPrecision_chopPrecision _⟩, rfl⟩
  · simp only [SvgPathContext.V, SvgPathContext.Absolute, SvgPathContext.Relative, hcur, ht,
      if_true]
    exact ⟨_, chopped_mk _ _, rfl⟩

/-- Result of `Z` when `Current` and `Start` are set. -/
theorem Z_result (c : SvgPathContext) (cur st : Point GoFloat) (hcur : c.Current = some cur)
    (hs : c.Start = some st) :
    c.Z = some { c with
      Path := c.Path ++ [Intersectable.segment cur st]
      Commands := c.Commands ++ ["Z"]
      Current := some st } := by
  simp only [SvgPathContext.Z, hcur, hs]

theorem segment_points_chopped (a b : Point GoFloat) (ha : a.chopped) (hb : b.chopped) :
    ∀ prim ∈ [Intersectable.segment a b], ∀ p ∈ prim.points, p.chopped := by
  intro prim hprim p hpm
  simp only [List.mem_singleton] at hprim
  subst hprim
  simp only [Intersectable.points, List.mem_cons, List.mem_singleton, List.not_mem_nil,
    or_false] at hpm
  rcases hpm with rfl | rfl
  · exact ha
  · exact hb

/-- One call keeps an open context open and, when its point (for `StartAt`) has chopped
coordinates, keeps all stored coordinates chopped. -/
theorem step_allChopped (c : SvgPathContext) (cmd : Cmd) (h : c.isOpen = true)
    (hc : c.allChopped) (hp : ∀ p, cmd = Cmd.StartAt p → p.chopped) :
    ∃ c1, step c cmd = some c1 ∧ c1.isOpen = true ∧ c1.allChopped := by
  obtain ⟨⟨st, hs⟩, ⟨cur, hcur⟩, ⟨tl, ht⟩⟩ := (isOpen_iff c).1 h
  obtain ⟨h1, h2, h3⟩ := hc
  have hst := h1 st hs
  have hcu := h2 cur hcur
  have key : ∀ (prims : List Intersectable) (cmds : List String) (e : Point GoFloat),
      e.chopped → (∀ prim ∈ prims, ∀ p ∈ prim.points, p.chopped) →
      ({ c with Path := c.Path ++ prims, Commands := cmds, Current := some e } :
          SvgPathContext).isOpen = true
        ∧ ({ c with Path := c.Path ++ prims, Commands := cmds, Current := some e } :
          SvgPathContext).allChopped := by
    intro prims cmds e he hprims
    refine ⟨by simp [SvgPathContext.isOpen, hs, ht], ?_, ?_, ?_⟩
    · intro p hp; exact h1 p hp
    · intro p hp
      simp only [Option.some.injEq] at hp
      subst hp; exact he
    · intro prim hprim p hpm
      simp only [List.mem_append] at hprim
      rcases hprim with hprim | hprim
      · exact h3 prim hprim p hpm
      · exact hprims prim hprim p hpm
  cases cmd with
  | StartAt p =>
    have hpc := hp p rfl
    refine ⟨_, rfl, by simp [SvgPathContext.isOpen, SvgPathContext.StartAt, ht], ?_, ?_, ?_⟩
    · intro q hq
      simp only [SvgPathContext.StartAt, Option.some.injEq] at hq
      subst hq; exact hpc
    · intro q hq
      simp only [SvgPathContext.StartAt, Option.some.injEq] at hq
      subst hq; exact hpc
    · intro prim hprim q hq
      exact h3 prim hprim q hq
  | Z =>
    exact ⟨_, Z_result c cur st hcur hs, key _ _ _ hst (segment_points_chopped _ _ hcu hst)⟩
  | L l x y =>
    obtain ⟨e, he, hL⟩ := L_result c cur tl hcur ht l x y
    exact ⟨_, hL, key _ _ _ he (segment_points_chopped _ _ hcu he)⟩
  | C l x1 y1 x2 y2 x3 y3 =>
    obtain ⟨q1, q2, q3, hc1, hc2, hc3, hC⟩ := C_result c cur tl hcur ht l x1 y1 x2 y2 x3 y3
    refine ⟨_, hC, key _ _ _ hc3 ?_⟩
    intro prim hprim p hpm
    simp only [List.mem_singleton] at hprim
    subst hprim
    simp only [Intersectable.points, List.mem_cons, List.mem_singleton, List.not_mem_nil,
      or_false] at hpm
    rcases hpm with rfl | rfl | rfl | rfl
    · exact hcu
    · exact hc1
    · exact hc2
    · exact hc3
  | H l x =>
    obtain ⟨e, he, hH⟩ := H_result c cur tl hcur ht hcu l x
    exact ⟨_, hH, key _ _ _ he (segment_points_chopped _ _ hcu he)⟩
  | V l y =>
    obtain ⟨e, he, hV⟩ := V_result c cur tl hcur ht hcu l y
    exact ⟨_, hV, key _ _ _ he (segment_points_chopped _ _ hcu he)⟩

theorem run_allChopped (cmds : List Cmd) :
    ∀ c : SvgPathContext, c.isOpen = true → c.allChopped →
      (∀ p, Cmd.StartAt p ∈ cmds → p.chopped) →
      ∃ c1, run c cmds = some c1 ∧ c1.isOpen = true ∧ c1.allChopped := by
  induction cmds with
  | nil => intro c h hc _; exact ⟨c, rfl, h, hc⟩
  | cons cmd rest ih =>
    intro c h hc hp
    obtain ⟨c1, h1, ho1, hc1⟩ :=
      step_allChopped c cmd h hc (fun p e => hp p (by simp [e]))
    obtain ⟨c2, h2, ho2, hc2⟩ :=
      ih c1 ho1 hc1 (fun p hm => hp p (List.mem_cons_of_mem _ hm))
    exact ⟨c2, by simp [run, h1, h2], ho2, hc2⟩

/-- C3 (amended). From a fresh context, after any sequence of calls that begins with
`StartAt`, if every point handed to `StartAt` has coordinates left unchanged by
`chopPrecision`, then so has every point held in `Start`, in `Current` and in the primitives
of `Path`. -/
theorem stored_coordinates_chopped (tl : Point GoFloat) (sx sy : GoFloat) (p : Point GoFloat)
    (cmds : List Cmd) (hp : ∀ q, Cmd.StartAt q ∈ Cmd.StartAt p :: cmds → q.chopped) :
    ∃ c, run (NewSVGPathContext tl sx sy) (Cmd.StartAt p :: cmds) = some c
      ∧ c.allChopped := by
  have hpc : p.chopped := hp p (by simp)
  obtain ⟨c, hr, -, hc⟩ :=
    run_allChopped cmds ((NewSVGPathContext tl sx sy).StartAt p)
      (by simp [SvgPathContext.isOpen, SvgPathContext.StartAt, NewSVGPathContext])
      ⟨by intro q hq
          simp only [SvgPathContext.StartAt, Option.some.injEq] at hq
          subst hq; exact hpc,
       by intro q hq
          simp only [SvgPathContext.StartAt, Option.some.injEq] at hq
          subst hq; exact hpc,
       by intro prim hprim
          simp [SvgPathContext.StartAt, NewSVGPathContext] at hprim⟩
      (fun q hq => hp q (List.mem_cons_of_mem _ hq))
  exact ⟨c, by simpa [run, step] using hr, hc⟩

/-- C3, instance: `StartAt (0, 0)`, absolute `L 10 0`, `Z` on the unit-scale context at the
origin. -/
theorem stored_coordinates_chopped_witness :
    ∃ c, run (NewSVGPathContext ⟨GoFloat.fin 0, GoFloat.fin 0⟩ (GoFloat.fin 1) (GoFloat.fin 1))
        [Cmd.StartAt ⟨GoFloat.fin 0, GoFloat.fin 0⟩,
         Cmd.L false (GoFloat.fin 10) (GoFloat.fin 0), Cmd.Z] = some c
      ∧ c.allChopped :=
  stored_coordinates_chopped ⟨GoFloat.fin 0, GoFloat.fin 0⟩ (GoFloat.fin 1) (GoFloat.fin 1)
    ⟨GoFloat.fin 0, GoFloat.fin 0⟩ [Cmd.L false (GoFloat.fin 10) (GoFloat.fin 0), Cmd.Z]
    (by
      intro q hq
      simp only [List.mem_cons, Cmd.StartAt.injEq, List.mem_singleton, List.not_mem_nil,
        or_false, reduceCtorEq] at hq
      subst hq
      exact ⟨chopPrecision_int_small 0 (by norm_num), chopPrecision_int_small 0 (by norm_num)⟩)

/-- A finite result of `chopPrecision` is an integer. -/
theorem chopPrecision_eq_fin (f : GoFloat) (q : ℚ) (h : chopPrecision f = GoFloat.fin q) :
    ∃ n : ℤ, q = n := by
  unfold chopPrecision at h
  cases hX : GoFloat.toFloat32 (f * GoFloat.fin 10000) / GoFloat.fin 10000 with
  | nan => rw [hX] at h; simp [GoFloat.round] at h
  | inf s => rw [hX] at h; simp [GoFloat.round] at h
  | fin a =>
    rw [hX] at h
    simp only [GoFloat.round, GoFloat.fin.injEq] at h
    exact ⟨_, h.symm⟩

set_option maxRecDepth 100000 in
/-- C3, counterexample. After `StartAt (1/32768, 0)` the field `Start` holds the coordinate
`1/32768`, which `chopPrecision` changes (to `0`) and which is not a result of
`chopPrecision` at all. -/
theorem stored_coordinates_unchopped :
    (run (NewSVGPathContext ⟨GoFloat.fin 0, GoFloat.fin 0⟩ (GoFloat.fin 1) (GoFloat.fin 1))
        [Cmd.StartAt ⟨GoFloat.fin (1 / 32768), GoFloat.fin 0⟩]).bind (fun c => c.Start)
      = some ⟨GoFloat.fin (1 / 32768), GoFloat.fin 0⟩
    ∧ chopPrecision (GoFloat.fin (1 / 32768)) = GoFloat.fin 0
    ∧ chopPrecision (GoFloat.fin (1 / 32768)) ≠ GoFloat.fin (1 / 32768)
    ∧ ∀ f, chopPrecision f ≠ GoFloat.fin (1 / 32768) := by
  refine ⟨rfl, by decide!, by decide!, ?_⟩
  intro f hf
  obtain ⟨n, hn⟩ := chopPrecision_eq_fin f _ hf
  have h1 : (n : ℚ) * 32768 = 1 := by rw [← hn]; norm_num
  have h2 : n * 32768 = 1 := by exact_mod_cast h1
  omega

/-! ## Bézier sub-segment: further identities -/

/-- C11. Degenerate range: in `BezierCurveSegment p1 p2 p3 p4 t t` the first and the last
returned point are computed by the same expression, so they coincide in every number type;
in exact arithmetic (any commutative ring, in particular the reals) both are the point of the
original curve at `t`. -/
theorem bezierCurveSegment_degenerate :
    (∀ (α : Type) [Add α] [Sub α] [Mul α] [OfNat α 1] [OfNat α 2] [OfNat α 3]
        (p1 p2 p3 p4 : Point α) (t : α),
      (BezierCurveSegment p1 p2 p3 p4 t t).1 = (BezierCurveSegment p1 p2 p3 p4 t t).2.2.2)
    ∧ ∀ (α : Type) [CommRing α] (p1 p2 p3 p4 : Point α) (t : α),
        (BezierCurveSegment p1 p2 p3 p4 t t).1 = bezierPoint p1 p2 p3 p4 t
        ∧ (BezierCurveSegment p1 p2 p3 p4 t t).2.2.2 = bezierPoint p1 p2 p3 p4 t := by
  refine ⟨fun α _ _ _ _ _ _ p1 p2 p3 p4 t => rfl, ?_⟩
  intro α _ p1 p2 p3 p4 t
  constructor
  · simp only [BezierCurveSegment, bezierPoint, Point.mk.injEq]
    constructor <;> ring
  · simp only [BezierCurveSegment, bezierPoint, Point.mk.injEq]
    constructor <;> ring

/-- C19. Sub-segments compose: in exact arithmetic (any commutative ring, in particular the
reals) taking the range `(c, d)` of the segment for the range `(a, b)` gives the segment for
the range `(a + c * (b - a), a + d * (b - a))`. -/
theorem bezierCurveSegment_compose {α : Type} [CommRing α] (p1 p2 p3 p4 : Point α)
    (a b c d : α) :
    BezierCurveSegment (BezierCurveSegment p1 p2 p3 p4 a b).1
        (BezierCurveSegment p1 p2 p3 p4 a b).2.1
        (BezierCurveSegment p1 p2 p3 p4 a b).2.2.1
        (BezierCurveSegment p1 p2 p3 p4 a b).2.2.2 c d
      = BezierCurveSegment p1 p2 p3 p4 (a + c * (b - a)) (a + d * (b - a)) := by
  simp only [BezierCurveSegment, Prod.mk.injEq, Point.mk.injEq]
  refine ⟨⟨?_, ?_⟩, ⟨?_, ?_⟩, ⟨?_, ?_⟩, ⟨?_, ?_⟩⟩ <;> ring

/-- C20 (amended). Swapping the range reverses the curve in exact arithmetic (any commutative
ring, in particular the reals): for all `t0`, `t1` in either order, the segment for `(t1, t0)`
is the segment for `(t0, t1)` with its four points in reverse order. In every number type, so
also as computed in `float64`, the first and the last point are exchanged exactly, being
computed by the same expressions; the two inner points are not covered there. -/
theorem bezierCurveSegment_swap :
    (∀ (α : Type) [CommRing α] (p1 p2 p3 p4 : Point α) (t0 t1 : α),
      BezierCurveSegment p1 p2 p3 p4 t1 t0
        = ((BezierCurveSegment p1 p2 p3 p4 t0 t1).2.2.2,
           (BezierCurveSegment p1 p2 p3 p4 t0 t1).2.2.1,
           (BezierCurveSegment p1 p2 p3 p4 t0 t1).2.1,
           (BezierCurveSegment p1 p2 p3 p4 t0 t1).1))
    ∧ ∀ (α : Type) [Add α] [Sub α] [Mul α] [OfNat α 1] [OfNat α 2] [OfNat α 3]
        (p1 p2 p3 p4 : Point α) (t0 t1 : α),
      (BezierCurveSegment p1 p2 p3 p4 t1 t0).1 = (BezierCurveSegment p1 p2 p3 p4 t0 t1).2.2.2
      ∧ (BezierCurveSegment p1 p2 p3 p4 t1 t0).2.2.2
          = (BezierCurveSegment p1 p2 p3 p4 t0 t1).1 := by
  refine ⟨?_, fun α _ _ _ _ _ _ p1 p2 p3 p4 t0 t1 => ⟨rfl, rfl⟩⟩
  intro α _ p1 p2 p3 p4 t0 t1
  simp only [BezierCurveSegment, Prod.mk.injEq, Point.mk.injEq]
  and_intros <;> first | trivial | ring

set_option maxRecDepth 100000 in
/-- C20, counterexample. As computed in `float64`, for the control points
`(0,0) (1,2) (3,4) (5,0)` and the `float64` values `0.2` and `0.7`: on the range `(0.2, 0.7)` the
second point has `X = 1.3920000000000003`, on the range `(0.7, 0.2)` the third point has
`X = 1.392`, so the result for the swapped range is not the reversed result. -/
theorem bezierCurveSegment_swap_fails :
    (BezierCurveSegment (⟨GoFloat.fin 0, GoFloat.fin 0⟩ : Point GoFloat)
        ⟨GoFloat.fin 1, GoFloat.fin 2⟩ ⟨GoFloat.fin 3, GoFloat.fin 4⟩
        ⟨GoFloat.fin 5, GoFloat.fin 0⟩ (ofRat64 (1 / 5)) (ofRat64 (7 / 10))).2.1.X
      = GoFloat.fin (1567252670324933 / 1125899906842624)
    ∧ (BezierCurveSegment (⟨GoFloat.fin 0, GoFloat.fin 0⟩ : Point GoFloat)
        ⟨GoFloat.fin 1, GoFloat.fin 2⟩ ⟨GoFloat.fin 3, GoFloat.fin 4⟩
        ⟨GoFloat.fin 5, GoFloat.fin 0⟩ (ofRat64 (7 / 10)) (ofRat64 (1 / 5))).2.2.1.X
      = GoFloat.fin (3134505340649865 / 2251799813685248)
    ∧ fmtV (GoFloat.fin (1567252670324933 / 1125899906842624)) = "1.3920000000000003"
    ∧ fmtV (GoFloat.fin (3134505340649865 / 2251799813685248)) = "1.392"
    ∧ ¬ (BezierCurveSegment (⟨GoFloat.fin 0, GoFloat.fin 0⟩ : Point GoFloat)
          ⟨GoFloat.fin 1, GoFloat.fin 2⟩ ⟨GoFloat.fin 3, GoFloat.fin 4⟩
          ⟨GoFloat.fin 5, GoFloat.fin 0⟩ (ofRat64 (7 / 10)) (ofRat64 (1 / 5))
        = ((BezierCurveSegment (⟨GoFloat.fin 0, GoFloat.fin 0⟩ : Point GoFloat)
              ⟨GoFloat.fin 1, GoFloat.fin 2⟩ ⟨GoFloat.fin 3, GoFloat.fin 4⟩
              ⟨GoFloat.fin 5, GoFloat.fin 0⟩ (ofRat64 (1 / 5)) (ofRat64 (7 / 10))).2.2.2,
           (BezierCurveSegment (⟨GoFloat.fin 0, GoFloat.fin 0⟩ : Point GoFloat)
              ⟨GoFloat.fin 1, GoFloat.fin 2⟩ ⟨GoFloat.fin 3, GoFloat.fin 4⟩
              ⟨GoFloat.fin 5, GoFloat.fin 0⟩ (ofRat64 (1 / 5)) (ofRat64 (7 / 10))).2.2.1,
           (BezierCurveSegment (⟨GoFloat.fin 0, GoFloat.fin 0⟩ : Point GoFloat)
              ⟨GoFloat.fin 1, GoFloat.fin 2⟩ ⟨GoFloat.fin 3, GoFloat.fin 4⟩
              ⟨GoFloat.fin 5, GoFloat.fin 0⟩ (ofRat64 (1 / 5)) (ofRat64 (7 / 10))).2.1,
           (BezierCurveSegment (⟨GoFloat.fin 0, GoFloat.fin 0⟩ : Point GoFloat)
              ⟨GoFloat.fin 1, GoFloat.fin 2⟩ ⟨GoFloat.fin 3, GoFloat.fin 4⟩
              ⟨GoFloat.fin 5, GoFloat.fin 0⟩ (ofRat64 (1 / 5)) (ofRat64 (7 / 10))).1)) := by
  have e1 : (BezierCurveSegment (⟨GoFloat.fin 0, GoFloat.fin 0⟩ : Point GoFloat)
        ⟨GoFloat.fin 1, GoFloat.fin 2⟩ ⟨GoFloat.fin 3, GoFloat.fin 4⟩
        ⟨GoFloat.fin 5, GoFloat.fin 0⟩ (ofRat64 (1 / 5)) (ofRat64 (7 / 10))).2.1.X
      = GoFloat.fin (1567252670324933 / 1125899906842624) := by decide!
  have e2 : (BezierCurveSegment (⟨GoFloat.fin 0, GoFloat.fin 0⟩ : Point GoFloat)
        ⟨GoFloat.fin 1, GoFloat.fin 2⟩ ⟨GoFloat.fin 3, GoFloat.fin 4⟩
        ⟨GoFloat.fin 5, GoFloat.fin 0⟩ (ofRat64 (7 / 10)) (ofRat64 (1 / 5))).2.2.1.X
      = GoFloat.fin (3134505340649865 / 2251799813685248) := by decide!
  refine ⟨e1, e2, by decide!, by decide!, fun h => ?_⟩
  have h3 := congrArg (fun r : Point GoFloat × Point GoFloat × Point GoFloat × Point GoFloat =>
    r.2.2.1.X) h
  simp only at h3
  rw [e2, e1] at h3
  revert h3
  decide!

/-! ## The path builder: shape of the results -/

/-- C12. With `Current` and `TopLeft` set, `C` resolves its three points one by one from the
`Current` held before the call (`Relative c.Current xi yi` when `isLowerCase`, `Absolute xi yi`
otherwise), appends the curve `[Current, q1, q2, q3]`, emits the token `C` listing `q1 q2 q3`
and moves `Current` to `q3`. -/
theorem curveTo_points (c : SvgPathContext) (cur tl : Point GoFloat)
    (hcur : c.Current = some cur) (ht : c.TopLeft = some tl) (x1 y1 x2 y2 x3 y3 : GoFloat) :
    (∃ q1 q2 q3, c.Relative c.Current x1 y1 = some q1 ∧ c.Relative c.Current x2 y2 = some q2
      ∧ c.Relative c.Current x3 y3 = some q3
      ∧ c.C true x1 y1 x2 y2 x3 y3 = some { c with
          Path := c.Path ++ [Intersectable.bezierCurve [cur, q1, q2, q3]]
          Commands := c.Commands ++ ["C " ++ fmtV q1.X ++ " " ++ fmtV q1.Y ++ " "
            ++ fmtV q2.X ++ " " ++ fmtV q2.Y ++ " " ++ fmtV q3.X ++ " " ++ fmtV q3.Y]
          Current := some q3 })
    ∧ ∃ q1 q2 q3, c.Absolute x1 y1 = some q1 ∧ c.Absolute x2 y2 = some q2
      ∧ c.Absolute x3 y3 = some q3
      ∧ c.C false x1 y1 x2 y2 x3 y3 = some { c with
          Path := c.Path ++ [Intersectable.bezierCurve [cur, q1, q2, q3]]
          Commands := c.Commands ++ ["C " ++ fmtV q1.X ++ " " ++ fmtV q1.Y ++ " "
            ++ fmtV q2.X ++ " " ++ fmtV q2.Y ++ " " ++ fmtV q3.X ++ " " ++ fmtV q3.Y]
          Current := some q3 } := by
  constructor
  · simp only [SvgPathContext.C, SvgPathContext.Relative, hcur, if_true]
    exact ⟨_, _, _, rfl, rfl, rfl, rfl⟩
  · simp only [SvgPathContext.C, SvgPathContext.Absolute, SvgPathContext.Relative, hcur, ht,
      Bool.false_eq_true, if_false]
    exact ⟨_, _, _, rfl, rfl, rfl, rfl⟩

/-- C12, instance: a relative curve from the pen position `(3, 4)` with scale `2`. -/
theorem curveTo_points_witness :
    ∃ q1 q2 q3,
      ((NewSVGPathContext ⟨GoFloat.fin 0, GoFloat.fin 0⟩ (GoFloat.fin 2) (GoFloat.fin 2)).StartAt
          ⟨GoFloat.fin 3, GoFloat.fin 4⟩).Relative (some ⟨GoFloat.fin 3, GoFloat.fin 4⟩)
          (GoFloat.fin 1) (GoFloat.fin 1) = some q1
      ∧ ((NewSVGPathContext ⟨GoFloat.fin 0, GoFloat.fin 0⟩ (GoFloat.fin 2)
          (GoFloat.fin 2)).StartAt ⟨GoFloat.fin 3, GoFloat.fin 4⟩).Relative
          (some ⟨GoFloat.fin 3, GoFloat.fin 4⟩) (GoFloat.fin 2) (GoFloat.fin 2) = some q2
      ∧ ((NewSVGPathContext ⟨GoFloat.fin 0, GoFloat.fin 0⟩ (GoFloat.fin 2)
          (GoFloat.fin 2)).StartAt ⟨GoFloat.fin 3, GoFloat.fin 4⟩).Relative
          (some ⟨GoFloat.fin 3, GoFloat.fin 4⟩) (GoFloat.fin 3) (GoFloat.fin 3) = some q3
      ∧ (((NewSVGPathContext ⟨GoFloat.fin 0, GoFloat.fin 0⟩ (GoFloat.fin 2)
          (GoFloat.fin 2)).StartAt ⟨GoFloat.fin 3, GoFloat.fin 4⟩).C true
            (GoFloat.fin 1) (GoFloat.fin 1) (GoFloat.fin 2) (GoFloat.fin 2)
            (GoFloat.fin 3) (GoFloat.fin 3)).map (fun c1 => (c1.Path, c1.Current))
          = some ([Intersectable.bezierCurve [⟨GoFloat.fin 3, GoFloat.fin 4⟩, q1, q2, q3]],
              some q3) := by
  obtain ⟨q1, q2, q3, h1, h2, h3, h4⟩ :=
    (curveTo_points
      ((NewSVGPathContext ⟨GoFloat.fin 0, GoFloat.fin 0⟩ (GoFloat.fin 2)
        (GoFloat.fin 2)).StartAt ⟨GoFloat.fin 3, GoFloat.fin 4⟩)
      ⟨GoFloat.fin 3, GoFloat.fin 4⟩ ⟨GoFloat.fin 0, GoFloat.fin 0⟩ rfl rfl
      (GoFloat.fin 1) (GoFloat.fin 1) (GoFloat.fin 2) (GoFloat.fin 2)
      (GoFloat.fin 3) (GoFloat.fin 3)).1
  exact ⟨q1, q2, q3, h1, h2, h3, by rw [h4]; rfl⟩

/-- What one call leaves in place: origin and scales are kept, one token is appended, and one
primitive is appended unless the call is `StartAt`, which leaves `Path` as it is. -/
theorem step_frame (c c1 : SvgPathContext) (cmd : Cmd) (h : step c cmd = some c1) :
    c1.TopLeft = c.TopLeft ∧ c1.ScaleX = c.ScaleX ∧ c1.ScaleY = c.ScaleY
      ∧ (∃ tok, c1.Commands = c.Commands ++ [tok])
      ∧ (((∃ p, cmd = Cmd.StartAt p) ∧ c1.Path = c.Path)
        ∨ ((∀ p, cmd ≠ Cmd.StartAt p) ∧ ∃ prim, c1.Path = c.Path ++ [prim])) := by
  cases cmd with
  | StartAt p =>
    simp only [step, Option.some.injEq] at h
    subst h
    simp [SvgPathContext.StartAt]
  | Z =>
    simp only [step, SvgPathContext.Z] at h
    split at h
    · simp only [Option.some.injEq] at h
      subst h
      simp
    · simp at h
  | L l x y =>
    simp only [step, SvgPathContext.L] at h
    split at h
    · simp only [Option.some.injEq] at h
      subst h
      simp
    · simp at h
  | C l x1 y1 x2 y2 x3 y3 =>
    simp only [step, SvgPathContext.C] at h
    split at h
    · simp only [Option.some.injEq] at h
      subst h
      simp
    · simp at h
  | H l x =>
    simp only [step, SvgPathContext.H] at h
    split at h
    · simp only [Option.some.injEq] at h
      subst h
      simp
    · simp at h
  | V l y =>
    simp only [step, SvgPathContext.V] at h
    split at h
    · simp only [Option.some.injEq] at h
      subst h
      simp
    · simp at h

/-- Origin and scales are kept by a sequence of calls. -/
theorem run_frame (cmds : List Cmd) :
    ∀ c c1 : SvgPathContext, run c cmds = some c1 →
      c1.TopLeft = c.TopLeft ∧ c1.ScaleX = c.ScaleX ∧ c1.ScaleY = c.ScaleY := by
  induction cmds with
  | nil =>
    intro c c1 h
    simp only [run, Option.some.injEq] at h
    subst h
    exact ⟨rfl, rfl, rfl⟩
  | cons cmd rest ih =>
    intro c c1 h
    simp only [run] at h
    cases hs : step c cmd with
    | none => rw [hs] at h; simp at h
    | some c2 =>
      rw [hs] at h
      simp only [Option.some_bind] at h
      obtain ⟨a1, a2, a3, -⟩ := step_frame c c2 cmd hs
      obtain ⟨b1, b2, b3⟩ := ih c2 c1 h
      exact ⟨b1.trans a1, b2.trans a2, b3.trans a3⟩

/-- C13. `NewSVGPathContext tl sx sy` has `TopLeft = tl`, `ScaleX = sx`, `ScaleY = sy` and empty
`Path` and `Commands`; every call (`StartAt`, `Z`, `L`, `C`, `H`, `V`, in either mode), and so
every sequence of calls, leaves `TopLeft`, `ScaleX` and `ScaleY` as they are. `Relative`,
`Absolute` and `PathData` only read the context. -/
theorem origin_and_scale_fixed :
    (∀ tl sx sy, (NewSVGPathContext tl sx sy).TopLeft = some tl
      ∧ (NewSVGPathContext tl sx sy).ScaleX = sx ∧ (NewSVGPathContext tl sx sy).ScaleY = sy
      ∧ (NewSVGPathContext tl sx sy).Path = [] ∧ (NewSVGPathContext tl sx sy).Commands = [])
    ∧ (∀ (c c1 : SvgPathContext) (cmd : Cmd), step c cmd = some c1 →
        c1.TopLeft = c.TopLeft ∧ c1.ScaleX = c.ScaleX ∧ c1.ScaleY = c.ScaleY)
    ∧ ∀ (c c1 : SvgPathContext) (cmds : List Cmd), run c cmds = some c1 →
        c1.TopLeft = c.TopLeft ∧ c1.ScaleX = c.ScaleX ∧ c1.ScaleY = c.ScaleY := by
  refine ⟨fun tl sx sy => ⟨rfl, rfl, rfl, rfl, rfl⟩, ?_, fun c c1 cmds h => run_frame cmds c c1 h⟩
  intro c c1 cmd h
  obtain ⟨a1, a2, a3, -⟩ := step_frame c c1 cmd h
  exact ⟨a1, a2, a3⟩

set_option maxRecDepth 100000 in
/-- C13, instance: an absolute `H` and an absolute `V` after `StartAt (3, 4)` on the context
with origin `(1, 2)` and scales `2`, `3`. -/
theorem origin_and_scale_fixed_witness :
    ∃ c1, run (NewSVGPathContext ⟨GoFloat.fin 1, GoFloat.fin 2⟩ (GoFloat.fin 2) (GoFloat.fin 3))
        [Cmd.StartAt ⟨GoFloat.fin 3, GoFloat.fin 4⟩, Cmd.H false (GoFloat.fin 10),
         Cmd.V false (GoFloat.fin 10)] = some c1
      ∧ c1.TopLeft = some ⟨GoFloat.fin 1, GoFloat.fin 2⟩ ∧ c1.ScaleX = GoFloat.fin 2
      ∧ c1.ScaleY = GoFloat.fin 3 := by
  have hr : (run (NewSVGPathContext ⟨GoFloat.fin 1, GoFloat.fin 2⟩ (GoFloat.fin 2)
      (GoFloat.fin 3)) [Cmd.StartAt ⟨GoFloat.fin 3, GoFloat.fin 4⟩,
        Cmd.H false (GoFloat.fin 10), Cmd.V false (GoFloat.fin 10)]).isSome = true := by
    decide!
  obtain ⟨c1, h1⟩ := Option.isSome_iff_exists.1 hr
  exact ⟨c1, h1, origin_and_scale_fixed.2.2 _ c1 _ h1⟩

/-- C14. Append-only: a call that returns keeps the previous `Commands` and appends exactly one
token; `StartAt` leaves `Path` as it is, every other call keeps the previous `Path` and appends
exactly one primitive. `PathData` only reads the context. -/
theorem append_only (c c1 : SvgPathContext) (cmd : Cmd) (h : step c cmd = some c1) :
    (∃ tok, c1.Commands = c.Commands ++ [tok])
    ∧ ((∃ p, cmd = Cmd.StartAt p) → c1.Path = c.Path)
    ∧ ((∀ p, cmd ≠ Cmd.StartAt p) → ∃ prim, c1.Path = c.Path ++ [prim]) := by
  obtain ⟨-, -, -, htok, hpath⟩ := step_frame c c1 cmd h
  refine ⟨htok, ?_, ?_⟩
  · rintro ⟨p, rfl⟩
    rcases hpath with ⟨-, h1⟩ | ⟨h1, -⟩
    · exact h1
    · exact absurd rfl (h1 p)
  · intro hne
    rcases hpath with ⟨⟨p, hp⟩, -⟩ | ⟨-, h1⟩
    · exact absurd hp (hne p)
    · exact h1

/-- C14, instance: `Z` on the context opened at `(3, 4)`. -/
theorem append_only_witness :
    ∃ c1, step ((NewSVGPathContext ⟨GoFloat.fin 0, GoFloat.fin 0⟩ (GoFloat.fin 1)
        (GoFloat.fin 1)).StartAt ⟨GoFloat.fin 3, GoFloat.fin 4⟩) Cmd.Z = some c1
      ∧ (∃ tok, c1.Commands = ((NewSVGPathContext ⟨GoFloat.fin 0, GoFloat.fin 0⟩ (GoFloat.fin 1)
          (GoFloat.fin 1)).StartAt ⟨GoFloat.fin 3, GoFloat.fin 4⟩).Commands ++ [tok])
      ∧ ∃ prim, c1.Path = ((NewSVGPathContext ⟨GoFloat.fin 0, GoFloat.fin 0⟩ (GoFloat.fin 1)
          (GoFloat.fin 1)).StartAt ⟨GoFloat.fin 3, GoFloat.fin 4⟩).Path ++ [prim] :=
  ⟨_, rfl,
    (append_only ((NewSVGPathContext ⟨GoFloat.fin 0, GoFloat.fin 0⟩ (GoFloat.fin 1)
      (GoFloat.fin 1)).StartAt ⟨GoFloat.fin 3, GoFloat.fin 4⟩) _ Cmd.Z rfl).1,
    (append_only ((NewSVGPathContext ⟨GoFloat.fin 0, GoFloat.fin 0⟩ (GoFloat.fin 1)
      (GoFloat.fin 1)).StartAt ⟨GoFloat.fin 3, GoFloat.fin 4⟩) _ Cmd.Z rfl).2.2
      (fun p h => by simp at h)⟩

/-- C16. Once `StartAt` has been called on a context made by `NewSVGPathContext`, every further
sequence of calls returns (no nil pointer is read) and leaves `Start` and `Current` set; on the
fresh context `StartAt` returns, while `Z`, `L`, `C`, `H` and `V`, in either mode, read a nil
`Current`. -/
theorem total_on_open (tl : Point GoFloat) (sx sy : GoFloat) :
    (∀ (p : Point GoFloat) (cmds : List Cmd),
      ∃ c, run (NewSVGPathContext tl sx sy) (Cmd.StartAt p :: cmds) = some c
        ∧ c.Start.isSome = true ∧ c.Current.isSome = true)
    ∧ (∀ p, (step (NewSVGPathContext tl sx sy) (Cmd.StartAt p)).isSome = true)
    ∧ (NewSVGPathContext tl sx sy).Z = none
    ∧ (∀ l x y, (NewSVGPathContext tl sx sy).L l x y = none)
    ∧ (∀ l x1 y1 x2 y2 x3 y3, (NewSVGPathContext tl sx sy).C l x1 y1 x2 y2 x3 y3 = none)
    ∧ (∀ l x, (NewSVGPathContext tl sx sy).H l x = none)
    ∧ ∀ l y, (NewSVGPathContext tl sx sy).V l y = none := by
  refine ⟨?_, fun p => rfl, rfl, ?_, ?_, ?_, ?_⟩
  · intro p cmds
    obtain ⟨c, hr, ho, -, -⟩ :=
      run_of_isOpen cmds ((NewSVGPathContext tl sx sy).StartAt p)
        (by simp [SvgPathContext.isOpen, SvgPathContext.StartAt, NewSVGPathContext])
    obtain ⟨⟨st, hs⟩, ⟨cur, hc⟩, -⟩ := (isOpen_iff c).1 ho
    exact ⟨c, by simpa [run, step] using hr, by simp [hs], by simp [hc]⟩
  · intro l x y
    cases l <;>
      simp [NewSVGPathContext, SvgPathContext.L, SvgPathContext.Absolute,
        SvgPathContext.Relative]
  · intro l x1 y1 x2 y2 x3 y3
    cases l <;>
      simp [NewSVGPathContext, SvgPathContext.C, SvgPathContext.Absolute,
        SvgPathContext.Relative]
  · intro l x
    cases l <;>
      simp [NewSVGPathContext, SvgPathContext.H, SvgPathContext.Absolute,
        SvgPathContext.Relative]
  · intro l y
    cases l <;>
      simp [NewSVGPathContext, SvgPathContext.V, SvgPathContext.Absolute,
        SvgPathContext.Relative]

/-! ## The path as a chain -/

theorem chainEnd_append (prim : Intersectable) (l : List Intersectable) :
    ∀ s : Point GoFloat, chainEnd s (l ++ [prim])
      = (chainEnd s l).bind (fun t => if prim.initial = some t then prim.terminal else none) := by
  induction l with
  | nil =>
    intro s
    simp only [List.nil_append, chainEnd, Option.some_bind]
    split_ifs
    · cases prim.terminal <;> simp
    · rfl
  | cons a rest ih =>
    intro s
    simp only [List.cons_append, chainEnd]
    split_ifs
    · cases a.terminal with
      | none => rfl
      | some t => simp only [Option.some_bind]; exact ih t
    · rfl

/-- Shape of the result of a call other than `StartAt` on a context with `Start`, `Current`
and `TopLeft` set: one primitive from `Current` to the new `Current` is appended; for `Z` it
is the segment from `Current` to `Start`. -/
theorem step_shape (c : SvgPathContext) (st cur tl : Point GoFloat) (hs : c.Start = some st)
    (hcur : c.Current = some cur) (ht : c.TopLeft = some tl) (cmd : Cmd)
    (hne : countStartAt [cmd] = 0) :
    ∃ prim e tok, step c cmd = some { c with
        Path := c.Path ++ [prim], Commands := c.Commands ++ [tok], Current := some e }
      ∧ prim.initial = some cur ∧ prim.terminal = some e
      ∧ (cmd = Cmd.Z → prim = Intersectable.segment cur st) := by
  cases cmd with
  | StartAt p => simp [countStartAt] at hne
  | Z =>
    exact ⟨_, _, _, Z_result c cur st hcur hs, rfl, rfl, fun _ => rfl⟩
  | L l x y =>
    cases l
    · simp only [step, SvgPathContext.L, SvgPathContext.Absolute, SvgPathContext.Relative, hcur,
        ht, Bool.false_eq_true, if_false]
      exact ⟨_, _, _, rfl, rfl, rfl, fun h => by simp at h⟩
    · simp only [step, SvgPathContext.L, SvgPathContext.Absolute, SvgPathContext.Relative, hcur,
        ht, if_true]
      exact ⟨_, _, _, rfl, rfl, rfl, fun h => by simp at h⟩
  | C l x1 y1 x2 y2 x3 y3 =>
    cases l
    · simp only [step, SvgPathContext.C, SvgPathContext.Absolute, SvgPathContext.Relative, hcur,
        ht, Bool.false_eq_true, if_false]
      exact ⟨_, _, _, rfl, rfl, rfl, fun h => by simp at h⟩
    · simp only [step, SvgPathContext.C, SvgPathContext.Absolute, SvgPathContext.Relative, hcur,
        ht, if_true]
      exact ⟨_, _, _, rfl, rfl, rfl, fun h => by simp at h⟩
  | H l x =>
    cases l
    · simp only [step, SvgPathContext.H, SvgPathContext.Absolute, SvgPathContext.Relative, hcur,
        ht, Bool.false_eq_true, if_false]
      exact ⟨_, _, _, rfl, rfl, rfl, fun h => by simp at h⟩
    · simp only [step, SvgPathContext.H, SvgPathContext.Absolute, SvgPathContext.Relative, hcur,
        ht, if_true]
      exact ⟨_, _, _, rfl, rfl, rfl, fun h => by simp at h⟩
  | V l y =>
    cases l
    · simp only [step, SvgPathContext.V, SvgPathContext.Absolute, SvgPathContext.Relative, hcur,
        ht, Bool.false_eq_true, if_false]
      exact ⟨_, _, _, rfl, rfl, rfl, fun h => by simp at h⟩
    · simp only [step, SvgPathContext.V, SvgPathContext.Absolute, SvgPathContext.Relative, hcur,
        ht, if_true]
      exact ⟨_, _, _, rfl, rfl, rfl, fun h => by simp at h⟩

/-- A sequence of calls without `StartAt` keeps `Start` and keeps `Path` a chain from the
point it was a chain from, ending at `Current`. -/
theorem run_chain (p : Point GoFloat) (cmds : List Cmd) :
    ∀ c : SvgPathContext, c.Start = some p → c.TopLeft.isSome = true →
      c.Current.isSome = true → chainEnd p c.Path = c.Current → countStartAt cmds = 0 →
      ∃ c1, run c cmds = some c1 ∧ c1.Start = some p ∧ c1.TopLeft.isSome = true
        ∧ c1.Current.isSome = true ∧ chainEnd p c1.Path = c1.Current := by
  induction cmds with
  | nil => intro c hs ht hc hch _; exact ⟨c, rfl, hs, ht, hc, hch⟩
  | cons cmd rest ih =>
    intro c hs ht hc hch hcnt
    rw [countStartAt_cons] at hcnt
    obtain ⟨tl, htl⟩ := Option.isSome_iff_exists.1 ht
    obtain ⟨cur, hcur⟩ := Option.isSome_iff_exists.1 hc
    obtain ⟨prim, e, tok, hstep, hi, hterm, -⟩ :=
      step_shape c p cur tl hs hcur htl cmd (by omega)
    have hch2 : chainEnd p (c.Path ++ [prim]) = some e := by
      rw [chainEnd_append, hch, hcur]
      simp [hi, hterm]
    obtain ⟨c2, h2, r⟩ :=
      ih { c with Path := c.Path ++ [prim], Commands := c.Commands ++ [tok], Current := some e }
        hs ht rfl hch2 (by omega)
    exact ⟨c2, by simp only [run, hstep, Option.some_bind]; exact h2, r⟩

/-- C18. After one `StartAt p` followed by any number of `L`, `C`, `H`, `V` and `Z` calls, the
call sequence returns, `Path` is a chain from `p` (its first primitive starts at `p` and every
later one starts at the terminal point of the one before) that ends at `Current`, and a `Z`
called now appends the segment from `Current` to `p`. -/
theorem path_is_chain (tl : Point GoFloat) (sx sy : GoFloat) (p : Point GoFloat)
    (cmds : List Cmd) (h : countStartAt cmds = 0) :
    ∃ c cur, run (NewSVGPathContext tl sx sy) (Cmd.StartAt p :: cmds) = some c
      ∧ c.Current = some cur ∧ chainEnd p c.Path = some cur
      ∧ ∃ c1, c.Z = some c1 ∧ c1.Path = c.Path ++ [Intersectable.segment cur p] := by
  obtain ⟨c, hr, hs, -, hc, hch⟩ :=
    run_chain p cmds ((NewSVGPathContext tl sx sy).StartAt p) rfl rfl rfl rfl h
  obtain ⟨cur, hcur⟩ := Option.isSome_iff_exists.1 hc
  refine ⟨c, cur, by simpa [run, step] using hr, hcur, by rw [hch, hcur], _,
    Z_result c cur p hcur hs, rfl⟩

set_option maxRecDepth 100000 in
/-- C18, instance: `StartAt (0, 0)`, absolute `L 10 0`, a relative curve, `Z`, absolute
`V 5`. -/
theorem path_is_chain_witness :
    ∃ c cur, run (NewSVGPathContext ⟨GoFloat.fin 0, GoFloat.fin 0⟩ (GoFloat.fin 1)
        (GoFloat.fin 1))
        [Cmd.StartAt ⟨GoFloat.fin 0, GoFloat.fin 0⟩,
         Cmd.L false (GoFloat.fin 10) (GoFloat.fin 0),
         Cmd.C true (GoFloat.fin 1) (GoFloat.fin 1) (GoFloat.fin 2) (GoFloat.fin 2)
           (GoFloat.fin 3) (GoFloat.fin 3),
         Cmd.Z, Cmd.V false (GoFloat.fin 5)] = some c
      ∧ c.Current = some cur ∧ chainEnd ⟨GoFloat.fin 0, GoFloat.fin 0⟩ c.Path = some cur
      ∧ ∃ c1, c.Z = some c1
        ∧ c1.Path = c.Path ++ [Intersectable.segment cur ⟨GoFloat.fin 0, GoFloat.fin 0⟩] :=
  path_is_chain ⟨GoFloat.fin 0, GoFloat.fin 0⟩ (GoFloat.fin 1) (GoFloat.fin 1)
    ⟨GoFloat.fin 0, GoFloat.fin 0⟩ _ (by decide)

/-! ## Dash heuristic: the gap -/

theorem getElem?_append_of_lt (h ext : Heap) (a : ℕ) (ha : a < h.length) :
    (h ++ ext)[a]? = h[a]? :=
  List.getElem?_append_left ha

theorem getElem?_append_length (h ext : Heap) (i : ℕ) :
    (h ++ ext)[h.length + i]? = ext[i]? := by
  rw [List.getElem?_append_right (Nat.le_add_right _ _), Nat.add_sub_cancel_left]

theorem ptrSegment_view_append (s : PtrSegment) (h ext : Heap) (h1 : s.Start < h.length)
    (h2 : s.End < h.length) : s.view (h ++ ext) = s.view h := by
  simp only [PtrSegment.view, getElem?_append_of_lt h ext _ h1, getElem?_append_of_lt h ext _ h2]

/-- Objects added at the end of the memory do not change what a valid context shows. -/
theorem ptrContext_view_append (c : PtrContext) (h ext : Heap) (hv : c.valid h) :
    c.view (h ++ ext) = c.view h := by
  obtain ⟨v1, v2, v3, v4⟩ := hv
  have e1 : c.Start.bind (fun a => (h ++ ext)[a]?) = c.Start.bind (fun a => h[a]?) := by
    cases hs : c.Start with
    | none => rfl
    | some a => exact getElem?_append_of_lt h ext a (v1 a hs)
  have e2 : c.Current.bind (fun a => (h ++ ext)[a]?) = c.Current.bind (fun a => h[a]?) := by
    cases hs : c.Current with
    | none => rfl
    | some a => exact getElem?_append_of_lt h ext a (v2 a hs)
  have e3 : c.TopLeft.bind (fun a => (h ++ ext)[a]?) = c.TopLeft.bind (fun a => h[a]?) := by
    cases hs : c.TopLeft with
    | none => rfl
    | some a => exact getElem?_append_of_lt h ext a (v3 a hs)
  have e4 : c.Path.filterMap (fun s => s.view (h ++ ext)) = c.Path.filterMap (fun s => s.view h) :=
    List.filterMap_congr (fun s hs => ptrSegment_view_append s h ext (v4 s hs).1 (v4 s hs).2)
  simp only [PtrContext.view, e1, e2, e3, e4]

theorem ptrContext_valid_append (c : PtrContext) (h ext : Heap) (hv : c.valid h) :
    c.valid (h ++ ext) := by
  obtain ⟨v1, v2, v3, v4⟩ := hv
  refine ⟨fun a ha => ?_, fun a ha => ?_, fun a ha => ?_, fun s hs => ?_⟩
  · have := v1 a ha; simp only [List.length_append]; omega
  · have := v2 a ha; simp only [List.length_append]; omega
  · have := v3 a ha; simp only [List.length_append]; omega
  · have := v4 s hs; simp only [List.length_append]; omega

/-- Pointer-level `NewSVGPathContext` shows the value-level context made from the value of
`tl`. -/
theorem newSVGPathContextPtr_view (h : Heap) (tl : ℕ) (sx sy : GoFloat) (v : Point GoFloat)
    (htl : h[tl]? = some v) :
    ∃ h1 c1, NewSVGPathContextPtr h tl sx sy = some (h1, c1)
      ∧ c1.view h1 = NewSVGPathContext v sx sy ∧ c1.valid h1 := by
  refine ⟨h ++ [v], PtrContext.mk [] [] none none (some h.length) sx sy,
    by simp only [NewSVGPathContextPtr, htl], ?_, ?_⟩
  · have e := getElem?_append_length h [v] 0
    simp only [Nat.add_zero] at e
    simp only [PtrContext.view, NewSVGPathContext, List.filterMap_nil, Option.none_bind,
      Option.some_bind, e]
    rfl
  · refine ⟨by simp, by simp, ?_, by simp⟩
    intro a ha
    simp only [Option.some.injEq] at ha
    subst ha
    simp

/-- Pointer-level `StartAt` shows the value-level `StartAt` of the value of `p`. -/
theorem ptr_StartAt_view (c : PtrContext) (h : Heap) (hv : c.valid h) (p : ℕ)
    (v : Point GoFloat) (hp : h[p]? = some v) :
    ∃ h1 c1, c.StartAt h p = some (h1, c1)
      ∧ c1.view h1 = (c.view h).StartAt v ∧ c1.valid h1 := by
  have hlt : p < h.length := by
    by_contra hge
    rw [List.getElem?_eq_none (not_lt.1 hge)] at hp
    simp at hp
  have hview := ptrContext_view_append c h [v] hv
  have hval := ptrContext_valid_append c h [v] hv
  have e0 := getElem?_append_length h [v] 0
  simp only [Nat.add_zero] at e0
  simp only [PtrContext.view, SvgPathContext.mk.injEq] at hview
  obtain ⟨e1, -, e3, e4, e5, -, -⟩ := hview
  refine ⟨h ++ [v], { c with
      Start := some p
      Commands := c.Commands ++ ["M " ++ fmtV v.X ++ " " ++ fmtV v.Y]
      Current := some h.length }, by simp only [PtrContext.StartAt, hp], ?_, ?_⟩
  · simp only [PtrContext.view, SvgPathContext.StartAt, Option.some_bind, e1, e5, e0,
      getElem?_append_of_lt h [v] p hlt, hp]
    rfl
  · obtain ⟨v1, v2, v3, v4⟩ := hval
    refine ⟨?_, ?_, v3, v4⟩
    · intro a ha
      simp only [Option.some.injEq] at ha
      subst ha
      simp only [List.length_append, List.length_singleton]
      omega
    · intro a ha
      simp only [Option.some.injEq] at ha
      subst ha
      simp

/-- Pointer-level `Z` shows the value-level `Z`. -/
theorem ptr_Z_view (c : PtrContext) (h : Heap) (hv : c.valid h) :
    (c.Z h).map (fun t => t.2.view t.1) = (c.view h).Z := by
  cases hcur : c.Current with
  | none => simp [PtrContext.Z, SvgPathContext.Z, PtrContext.view, hcur]
  | some cur =>
    cases hst : c.Start with
    | none => simp [PtrContext.Z, SvgPathContext.Z, PtrContext.view, hcur, hst]
    | some st =>
      have hc := hv.2.1 cur hcur
      have hs := hv.1 st hst
      obtain ⟨vc, ec⟩ : ∃ vc, h[cur]? = some vc := ⟨_, List.getElem?_eq_getElem hc⟩
      obtain ⟨vs, es⟩ : ∃ vs, h[st]? = some vs := ⟨_, List.getElem?_eq_getElem hs⟩
      have hview := ptrContext_view_append c h [vc, vs, vs] hv
      have g0 := getElem?_append_length h [vc, vs, vs] 0
      have g1 := getElem?_append_length h [vc, vs, vs] 1
      have g2 := getElem?_append_length h [vc, vs, vs] 2
      simp only [Nat.add_zero] at g0
      simp only [PtrContext.view, SvgPathContext.mk.injEq] at hview
      obtain ⟨e1, -, e3, e4, e5, -, -⟩ := hview
      have lhs : c.Z h = some (h ++ [vc, vs, vs],
          { c with
            Path := c.Path ++ [⟨h.length, h.length + 1⟩]
            Commands := c.Commands ++ ["Z"]
            Current := some (h.length + 2) }) := by
        simp only [PtrContext.Z, hcur, hst, ec, es]
      have rhs : (c.view h).Z = some { c.view h with
          Path := (c.view h).Path ++ [Intersectable.segment vc vs]
          Commands := (c.view h).Commands ++ ["Z"]
          Current := some vs } := by
        simp only [SvgPathContext.Z, PtrContext.view, hcur, hst, Option.some_bind, ec, es]
      rw [lhs, rhs]
      simp only [Option.map_some', Option.some.injEq, PtrContext.view, List.filterMap_append,
        e1, e5, hst, Option.some_bind, g2, getElem?_append_of_lt h [vc, vs, vs] st hs, es,
        SvgPathContext.mk.injEq, and_true, true_and]
      simp [PtrSegment.view, g0, g1]
/-- After `StartAt(p)`, an assignment by the caller to the object `p` shows in `Start`, and not
in `Current`, which is a copy. -/
theorem ptr_StartAt_then_assign (c : PtrContext) (h : Heap) (p : ℕ) (v w : Point GoFloat)
    (hp : h[p]? = some v) :
    ∃ h1 c1, c.StartAt h p = some (h1, c1)
      ∧ (c1.view (h1.set p w)).Start = some w
      ∧ (c1.view (h1.set p w)).Current = some v
      ∧ (c1.view (h1.set p w)).Commands = (c1.view h1).Commands := by
  have hlt : p < h.length := by
    by_contra hge
    rw [List.getElem?_eq_none (not_lt.1 hge)] at hp
    simp at hp
  have e0 := getElem?_append_length h [v] 0
  simp only [Nat.add_zero] at e0
  refine ⟨h ++ [v], { c with
      Start := some p
      Commands := c.Commands ++ ["M " ++ fmtV v.X ++ " " ++ fmtV v.Y]
      Current := some h.length }, by simp only [PtrContext.StartAt, hp], ?_, ?_, rfl⟩
  · simp only [PtrContext.view, Option.some_bind]
    rw [List.getElem?_set_self]
    simp only [List.length_append, List.length_singleton]
    omega
  · simp only [PtrContext.view, Option.some_bind]
    rw [List.getElem?_set_ne (by omega), e0]
    rfl

set_option maxRecDepth 100000 in
/-- C15, the code at the failing input. The memory holds the caller's points `tl = (0, 0)` at
address `0` and `p = (0, 0)` at address `1`; the context is made from `tl` and opened with
`StartAt(p)`. Then `Start` is `(0, 0)`; once the caller has assigned `(5, 0)` to `p`, `Start` is
`(5, 0)`, while `Current`, `TopLeft` and `Commands` are as before, and a `Z` called then appends
the segment from `(0, 0)` to `(5, 0)` and leaves `Current` at `(5, 0)`. -/
theorem startAt_shares_the_point :
    ((NewSVGPathContextPtr [⟨GoFloat.fin 0, GoFloat.fin 0⟩, ⟨GoFloat.fin 0, GoFloat.fin 0⟩] 0
        (GoFloat.fin 1) (GoFloat.fin 1)).bind (fun s => s.2.StartAt s.1 1)).map
      (fun s => (s.2.view s.1).Start) = some (some ⟨GoFloat.fin 0, GoFloat.fin 0⟩)
    ∧ ((NewSVGPathContextPtr [⟨GoFloat.fin 0, GoFloat.fin 0⟩, ⟨GoFloat.fin 0, GoFloat.fin 0⟩] 0
        (GoFloat.fin 1) (GoFloat.fin 1)).bind (fun s => s.2.StartAt s.1 1)).map
      (fun s => (s.2.view (s.1.set 1 ⟨GoFloat.fin 5, GoFloat.fin 0⟩)).Start)
        = some (some ⟨GoFloat.fin 5, GoFloat.fin 0⟩)
    ∧ ((NewSVGPathContextPtr [⟨GoFloat.fin 0, GoFloat.fin 0⟩, ⟨GoFloat.fin 0, GoFloat.fin 0⟩] 0
        (GoFloat.fin 1) (GoFloat.fin 1)).bind (fun s => s.2.StartAt s.1 1)).map
      (fun s => (s.2.view (s.1.set 1 ⟨GoFloat.fin 5, GoFloat.fin 0⟩)).Current)
        = some (some ⟨GoFloat.fin 0, GoFloat.fin 0⟩)
    ∧ ((NewSVGPathContextPtr [⟨GoFloat.fin 0, GoFloat.fin 0⟩, ⟨GoFloat.fin 0, GoFloat.fin 0⟩] 0
        (GoFloat.fin 1) (GoFloat.fin 1)).bind (fun s => s.2.StartAt s.1 1)).map
      (fun s => (s.2.view (s.1.set 1 ⟨GoFloat.fin 5, GoFloat.fin 0⟩)).TopLeft)
        = some (some ⟨GoFloat.fin 0, GoFloat.fin 0⟩)
    ∧ ((NewSVGPathContextPtr [⟨GoFloat.fin 0, GoFloat.fin 0⟩, ⟨GoFloat.fin 0, GoFloat.fin 0⟩] 0
        (GoFloat.fin 1) (GoFloat.fin 1)).bind (fun s => s.2.StartAt s.1 1)).map
      (fun s => (s.2.view (s.1.set 1 ⟨GoFloat.fin 5, GoFloat.fin 0⟩)).Commands)
        = some ["M 0 0"]
    ∧ (((NewSVGPathContextPtr [⟨GoFloat.fin 0, GoFloat.fin 0⟩, ⟨GoFloat.fin 0, GoFloat.fin 0⟩] 0
        (GoFloat.fin 1) (GoFloat.fin 1)).bind (fun s => s.2.StartAt s.1 1)).bind
      (fun s => s.2.Z (s.1.set 1 ⟨GoFloat.fin 5, GoFloat.fin 0⟩))).map
      (fun t => (t.2.view t.1).Path)
        = some [Intersectable.segment ⟨GoFloat.fin 0, GoFloat.fin 0⟩
            ⟨GoFloat.fin 5, GoFloat.fin 0⟩]
    ∧ (((NewSVGPathContextPtr [⟨GoFloat.fin 0, GoFloat.fin 0⟩, ⟨GoFloat.fin 0, GoFloat.fin 0⟩] 0
        (GoFloat.fin 1) (GoFloat.fin 1)).bind (fun s => s.2.StartAt s.1 1)).bind
      (fun s => s.2.Z (s.1.set 1 ⟨GoFloat.fin 5, GoFloat.fin 0⟩))).map
      (fun t => (t.2.view t.1).Current) = some (some ⟨GoFloat.fin 5, GoFloat.fin 0⟩) := by
  refine ⟨by decide!, by decide!, by decide!, by decide!, by decide!, by decide!, by decide!⟩

end D2Svg
